import Mathlib

/-!
Verification of the interactive annotation engine of the sat-annotator
repository, a shallow embedding of `web/src/components/AnnotationCanvas.tsx`,
`web/src/services/api.ts` and the `createSegmentationFromManualPoints`
provenance logic of `ImageViewer.tsx`.

Modelling conventions:
* JavaScript `number` arithmetic is embedded as exact rational arithmetic (`ℚ`).
  Square-root comparisons from the source (`Math.sqrt`, `Math.hypot`) are
  translated into equivalent sign-aware squared comparisons, so that every
  predicate stays decidable: for nonnegative `r`, `dist < r ↔ dist² < r²`,
  and for unit-normalised vectors `v₁/|v₁| · v₂/|v₂| < c ↔
  (v₁·v₂ < 0 ∨ (v₁·v₂)² < c²·|v₁|²·|v₂|²)` whenever `c > 0`.
* React state updates (`setAnnotations`, `setScale`, ...) become explicit
  state-passing over an `EngineState` record; each event handler becomes a
  pure function from the pre-state (plus the event data) to the post-state.
* The single network suspension point (the segmentation request) is modelled
  by passing the request outcome as data into the response-processing part of
  the handler.
-/

/-- Logical image coordinates, the `Point` interface of `AnnotationCanvas.tsx`. -/
structure Pt where
  x : ℚ
  y : ℚ
  deriving DecidableEq, Repr

/-- `AnnotationTool` of `AnnotationToolbar.tsx`: tool selectors; `pointer` and
`ai` never materialise as stored shape types. -/
inductive ATool where
  | pointer
  | rectangle
  | circle
  | ellipse
  | point
  | polygon
  | polyline
  | ai
  deriving DecidableEq, Repr

/-- The `Annotation` interface of `AnnotationCanvas.tsx`. -/
structure Annot where
  id : String
  type : ATool
  points : List Pt
  completed : Bool
  label : String
  isSelected : Bool
  deriving DecidableEq, Repr

/-- Squared Euclidean distance.  The source's `distance` is
`Math.hypot (p1.x - p2.x) (p1.y - p2.y)`; we keep the square to stay in `ℚ`. -/
def sqDist (p q : Pt) : ℚ :=
  (p.x - q.x) ^ 2 + (p.y - q.y) ^ 2

/-- `distance p q < r`, translated from the float comparison: a nonnegative
distance is `< r` iff `r > 0` and `dist² < r²`. -/
def distLt (p q : Pt) (r : ℚ) : Bool :=
  decide (0 < r) && decide (sqDist p q < r ^ 2)

/-- `distance p q > r`, translated from the float comparison: a nonnegative
distance is `> r` iff `r < 0`, or `dist² > r²`. -/
def distGt (p q : Pt) (r : ℚ) : Bool :=
  decide (r < 0) || decide (r ^ 2 < sqDist p q)

/-- Squared length of a vector (stored as a `Pt`). -/
def sqLen (v : Pt) : ℚ :=
  v.x ^ 2 + v.y ^ 2

/-- The degeneracy guard of `simplifyPolygon`: `len < 0.0001` for a
nonnegative length is `len² < 0.0001²`. -/
def shortSeg (v : Pt) : Bool :=
  decide (sqLen v < (1 / 10000) ^ 2)

/-- The turning-angle test of `simplifyPolygon`: `nv1 · nv2 < 0.95` where
`nv1, nv2` are the unit normalisations of `v1, v2`.  For nonzero vectors this
is `v1·v2 < 0.95·|v1|·|v2|`, i.e. `v1·v2 < 0` or `(v1·v2)² < 0.95²·|v1|²·|v2|²`. -/
def dotBelow (v1 v2 : Pt) : Bool :=
  let d := v1.x * v2.x + v1.y * v2.y
  decide (d < 0) || decide (d ^ 2 < (95 / 100) ^ 2 * (sqLen v1 * sqLen v2))

/-- One iteration of the interior-point loop of `simplifyPolygon`
(`AnnotationCanvas.tsx` lines 97-124): given the last *kept* point `prev`, the
current point and its successor, decide whether the current point is pushed.
Degenerate segments (`len1 < 0.0001 || len2 < 0.0001`) are skipped (`continue`). -/
def keepPoint (tol : ℚ) (prev current next : Pt) : Bool :=
  let v1 : Pt := ⟨current.x - prev.x, current.y - prev.y⟩
  let v2 : Pt := ⟨next.x - current.x, next.y - current.y⟩
  if shortSeg v1 || shortSeg v2 then false
  else dotBelow v1 v2 || distGt prev current (tol * 5)

/-- The interior loop of `simplifyPolygon`: the argument list holds the
remaining interior points followed by the final point, which is always pushed
(`result.push(points[pointsLength - 1])`). `prev` is `points[lastIncludedIndex]`. -/
def simplifyLoop (tol : ℚ) : Pt → List Pt → List Pt
  | _, [] => []
  | prev, current :: rest =>
    match rest with
    | [] => [current]
    | next :: _ =>
      if keepPoint tol prev current next then
        current :: simplifyLoop tol current rest
      else
        simplifyLoop tol prev rest

/-- `simplifyPolygon` of `AnnotationCanvas.tsx` (lines 84-130): keeps the
first point, scans interior points against the last kept point, always keeps
the last point; inputs with fewer than 3 points are returned unchanged. -/
def simplifyPolygon (points : List Pt) (tol : ℚ) : List Pt :=
  if points.length < 3 then points
  else
    match points with
    | [] => points
    | p0 :: rest => p0 :: simplifyLoop tol p0 rest

/-- The keep rule exactly as claim C7 words it, with no degenerate-segment
guard: keep iff the normalised dot product is below `0.95` or the distance
from the last kept point exceeds `5 × toleranceBase`. -/
def claimKeepPoint (tol : ℚ) (prev current next : Pt) : Bool :=
  let v1 : Pt := ⟨current.x - prev.x, current.y - prev.y⟩
  let v2 : Pt := ⟨next.x - current.x, next.y - current.y⟩
  dotBelow v1 v2 || distGt prev current (tol * 5)

/-- The simplification that claim C7 describes, literally: same loop as
`simplifyLoop` but with `claimKeepPoint` (no degenerate-segment skip). -/
def claimSimplifyLoop (tol : ℚ) : Pt → List Pt → List Pt
  | _, [] => []
  | prev, current :: rest =>
    match rest with
    | [] => [current]
    | next :: _ =>
      if claimKeepPoint tol prev current next then
        current :: claimSimplifyLoop tol current rest
      else
        claimSimplifyLoop tol prev rest

/-- `previewSimplify` as claim C7 states it. -/
def claimSimplify (points : List Pt) (tol : ℚ) : List Pt :=
  if points.length < 3 then points
  else
    match points with
    | [] => points
    | p0 :: rest => p0 :: claimSimplifyLoop tol p0 rest

/-- The amended characterisation of the interior selection: a recursion over
the interior points alone (the successor of the final interior point being the
last input point), keeping a point iff `keepPoint` holds against the last
kept point.  Used to state what `simplifyPolygon` computes. -/
def keptInterior (tol : ℚ) : Pt → List Pt → Pt → List Pt
  | _, [], _ => []
  | prev, c :: cs, last =>
    let nxt := match cs with
      | [] => last
      | n :: _ => n
    if keepPoint tol prev c nxt then c :: keptInterior tol c cs last
    else keptInterior tol prev cs last

/-- Concrete input separating `simplifyPolygon` from claim C7's rule: the
second and third points are `1/20000` apart, under the `0.0001` degeneracy
threshold. -/
def c7Input : List Pt :=
  [⟨0, 0⟩, ⟨100, 0⟩, ⟨100 + 1 / 20000, 0⟩, ⟨200, 0⟩]

/-! ## Viewport transform -/

/-- The zoom/pan state of the canvas: `scale` and `offset` of
`AnnotationCanvas.tsx`. -/
structure Viewport where
  scale : ℚ
  offset : Pt
  deriving DecidableEq, Repr

/-- `getCanvasCoords` (lines 144-155): device/client coordinates to logical
image coordinates, `(client - rect - offset) / scale`. -/
def getCanvasCoords (v : Viewport) (clientX clientY rectLeft rectTop : ℚ) : Pt :=
  ⟨(clientX - rectLeft - v.offset.x) / v.scale,
   (clientY - rectTop - v.offset.y) / v.scale⟩

/-- `Math.max lo (Math.min hi q)`. -/
def clampQ (lo hi q : ℚ) : ℚ := max lo (min hi q)

/-- The "adjustment" step of `handleAISegmentation` (lines 295-296):
`adjusted = (point - offset/scale) / scale`, applied to the *already logical*
point passed in from `handleMouseDown`. -/
def aiAdjusted (v : Viewport) (point : Pt) : Pt :=
  ⟨(point.x - v.offset.x / v.scale) / v.scale,
   (point.y - v.offset.y / v.scale) / v.scale⟩

/-- The normalisation step of `handleAISegmentation` (lines 299-300):
clamp the adjusted point divided by the canvas pixel dimensions into `[0,1]`.
The canvas dimensions equal the image's native dimensions (the image-load
effect sets `canvas.width = img.width`). -/
def aiNormalized (v : Viewport) (point : Pt) (canvasW canvasH : ℚ) : Pt :=
  ⟨clampQ 0 1 ((aiAdjusted v point).x / canvasW),
   clampQ 0 1 ((aiAdjusted v point).y / canvasH)⟩

/-- The full coordinate pipeline for an AI click: `handleMouseDown` converts
the mouse event through `getCanvasCoords` and passes the result to
`handleAISegmentation` (lines 615-619), which adjusts and normalises it. -/
def aiRequestCoords (v : Viewport) (clientX clientY rectLeft rectTop canvasW canvasH : ℚ) : Pt :=
  aiNormalized v (getCanvasCoords v clientX clientY rectLeft rectTop) canvasW canvasH

/-- The conversion claim C1 (and §4.5 of the spec) states:
`normalized = clamp((devicePoint - offset)/scale / imageDimension, 0, 1)`. -/
def specNormalized (v : Viewport) (clientX clientY rectLeft rectTop imgW imgH : ℚ) : Pt :=
  ⟨clampQ 0 1 ((clientX - rectLeft - v.offset.x) / v.scale / imgW),
   clampQ 0 1 ((clientY - rectTop - v.offset.y) / v.scale / imgH)⟩

/-- `handleWheel`'s multiplicative factor: `delta = deltaY < 0 ? 0.15 : -0.15`,
`zoomFactor = 1 + delta`. -/
def zoomFactor (zoomIn : Bool) : ℚ :=
  if zoomIn then 1 + 15 / 100 else 1 - 15 / 100

/-- `handleWheel` (lines 370-389): clamp the new scale to `[0.05, 20]` and move
the offset so as to zoom about the mouse position (taken relative to the
canvas bounding rectangle). -/
def handleWheel (v : Viewport) (mouse : Pt) (zoomIn : Bool) : Viewport :=
  let zf := zoomFactor zoomIn
  let newScale := max (1 / 20) (min 20 (v.scale * zf))
  ⟨newScale,
   ⟨mouse.x - (mouse.x - v.offset.x) * zf, mouse.y - (mouse.y - v.offset.y) * zf⟩⟩

/-- The device-to-logical map at a rect-relative mouse position, i.e.
`getCanvasCoords` with the bounding rectangle already subtracted. -/
def toLogical (v : Viewport) (mouse : Pt) : Pt :=
  ⟨(mouse.x - v.offset.x) / v.scale, (mouse.y - v.offset.y) / v.scale⟩

/-- `resetView` (lines 255-278): fit scale times `0.85`, capped at `1.0`;
the offset is computed from the *uncapped* `newScale`. -/
def resetView (containerW containerH imgW imgH : ℚ) : Viewport :=
  let scaleX := containerW / imgW
  let scaleY := containerH / imgH
  let newScale := min scaleX scaleY * (85 / 100)
  let offsetX := (containerW - imgW * newScale) / 2
  let offsetY := (containerH - imgH * newScale) / 2
  ⟨min newScale 1, ⟨offsetX, offsetY⟩⟩

/-! ## Provenance / ID lineage (`createSegmentationFromManualPoints`,
`ImageViewer.tsx`) -/

/-- Does `hay` start with `needle`?  (`String.prototype.startsWith`.) -/
def chStarts : List Char → List Char → Bool
  | [], _ => true
  | _ :: _, [] => false
  | a :: as, b :: bs => a == b && chStarts as bs

/-- Does the haystack contain the needle as a contiguous substring?
(`String.prototype.includes`.) -/
def chFind (needle : List Char) : List Char → Bool
  | [] => needle.isEmpty
  | c :: cs => chStarts needle (c :: cs) || chFind needle cs

/-- `s.startsWith p`. -/
def strStarts (s p : String) : Bool := chStarts p.data s.data

/-- `s.includes sub`. -/
def strIncl (s sub : String) : Bool := chFind sub.data s.data

/-- `s.endsWith suf` (used only to state the claim's suffix-based rule). -/
def strEnds (s suf : String) : Bool := chStarts suf.data.reverse s.data.reverse

/-- The annotation-id chosen by `createSegmentationFromManualPoints`
(`ImageViewer.tsx` lines 196-221).  `segId = none` models a missing
`segmentation.annotation_id`; the empty string is falsy in the JS guards. -/
def createdAnnotId (segId : Option String) (ts : String) : String :=
  let idVal := segId.getD ""
  if idVal != "" && !strStarts idVal "manual-" && !strIncl idVal "-modified" then
    idVal ++ "-modified"
  else if strIncl idVal "-modified" then idVal
  else if strStarts idVal "manual-" then idVal
  else "manual-" ++ ts

/-- The id assignment exactly as claim C4 words it, with a *suffix* test for
`-modified` instead of the code's substring test. -/
def claimAnnotId (segId : Option String) (ts : String) : String :=
  match segId with
  | none => "manual-" ++ ts
  | some s =>
    if !strStarts s "manual-" && !strEnds s "-modified" then s ++ "-modified"
    else if strEnds s "-modified" then s
    else s

/-! ## Control-point dragging (`handleMouseMove`, lines 826-885) -/

/-- Placeholder for out-of-range indexing (never reached under the source's
length guards). -/
def dflt : Pt := ⟨0, 0⟩

/-- The per-shape control-point update of `handleMouseMove` (lines 831-882):
rectangle corners re-square the shape, a circle always gets `[center, pos]`
regardless of which control point is dragged, ellipse handles are constrained
per axis, everything else replaces the dragged vertex. -/
def dragControlPoint (ann : Annot) (idx : ℕ) (pos : Pt) : Annot :=
  if ann.type = ATool.rectangle ∧ ann.points.length = 4 then
    match ann.points with
    | [p0, p1, p2, p3] =>
      let newPts :=
        if idx = 0 then [pos, ⟨p1.x, pos.y⟩, p2, ⟨pos.x, p3.y⟩]
        else if idx = 1 then [⟨p0.x, pos.y⟩, pos, ⟨pos.x, p2.y⟩, p3]
        else if idx = 2 then [p0, ⟨pos.x, p1.y⟩, pos, ⟨p3.x, pos.y⟩]
        else if idx = 3 then [⟨pos.x, p0.y⟩, p1, ⟨p2.x, pos.y⟩, pos]
        else ann.points.set idx pos
      { ann with points := newPts }
    | _ => { ann with points := ann.points.set idx pos }
  else if ann.type = ATool.circle ∧ ann.points.length = 2 then
    match ann.points with
    | c :: _ => { ann with points := [c, pos] }
    | [] => ann
  else if ann.type = ATool.ellipse ∧ 3 ≤ ann.points.length then
    let c := ann.points.getD 0 dflt
    let p1 := ann.points.getD 1 dflt
    let p2 := ann.points.getD 2 dflt
    if idx = 1 then { ann with points := ann.points.set 1 ⟨pos.x, c.y⟩ }
    else if idx = 2 then { ann with points := ann.points.set 2 ⟨c.x, pos.y⟩ }
    else if idx = 0 then
      let q1 : Pt := ⟨p1.x + (pos.x - c.x), p1.y + (pos.y - c.y)⟩
      let q2 : Pt := ⟨p2.x + (pos.x - c.x), p2.y + (pos.y - c.y)⟩
      { ann with points := ((ann.points.set 0 pos).set 1 q1).set 2 q2 }
    else ann
  else { ann with points := ann.points.set idx pos }

/-! ## Annotation store and tool state machine -/

/-- The response shape of the segmentation service
(`SegmentationResponse` in `api.ts`); `annotationId` is the optional
`annotation_id` field, polygon points are normalised `[0,1]` pairs. -/
structure SegResponse where
  success : Bool
  polygon : List (ℚ × ℚ)
  annotationId : Option String
  cached : Bool
  deriving DecidableEq, Repr

/-- `response.annotation_id || generateUniqueId()`: the empty string is falsy
in JS, so it also falls back to the freshly generated id. -/
def aiIdUsed (resp : SegResponse) (freshId : String) : String :=
  match resp.annotationId with
  | none => freshId
  | some s => if s = "" then freshId else s

/-- The mutable component state of `AnnotationCanvas`: the annotation
collection, the in-progress shape data, the selection ref, and the
loading/error callback values.  `usedIds` records every id ever installed, so
that freshness of generated ids can be stated; `scale`, `canvasW`, `canvasH`
are the viewport scale and the canvas (= native image) pixel dimensions.
Status-message callbacks and panning state are not modelled (they never touch
the annotation collection). -/
structure EngineState where
  annotations : List Annot
  activeAnnot : Option Annot
  drawingPolygon : Bool
  selectedId : Option String
  usedIds : List String
  scale : ℚ
  canvasW : ℚ
  canvasH : ℚ
  loading : Bool
  errorMsg : Option String
  deriving DecidableEq, Repr

/-- The state right after the image loads: no annotations. -/
def initState (w h : ℚ) : EngineState :=
  ⟨[], none, false, none, [], 1, w, h, false, none⟩

/-- `prev.map(a => ({ ...a, isSelected: false }))`. -/
def deselectAll (l : List Annot) : List Annot :=
  l.map fun a => { a with isSelected := false }

/-- `getControlPoints` (lines 158-176). -/
def getControlPoints (a : Annot) : List Pt :=
  if a.type = ATool.rectangle ∧ a.points.length = 4 then a.points
  else if a.type = ATool.circle ∧ a.points.length = 2 then
    [a.points.getD 0 dflt, a.points.getD 1 dflt]
  else if a.type = ATool.ellipse ∧ 3 ≤ a.points.length then
    [a.points.getD 0 dflt, a.points.getD 1 dflt, a.points.getD 2 dflt]
  else if a.type = ATool.polygon ∨ a.type = ATool.polyline then a.points
  else []

/-- `updateActiveAnnotationPoints` (lines 179-186): rewrite the points of the
active annotation and of every stored annotation sharing its id. -/
def updateActivePoints (s : EngineState) (pts : List Pt) : EngineState :=
  match s.activeAnnot with
  | none => s
  | some act =>
    { s with
      activeAnnot := some { act with points := pts }
      annotations := s.annotations.map fun a =>
        if a.id = act.id then { a with points := pts } else a }

/-- `completePolygon` (lines 189-210): refuse a polygon with fewer than 3
points, otherwise mark the active annotation completed, clear the drawing
state and keep it selected. -/
def completePolygon (s : EngineState) : EngineState :=
  match s.activeAnnot with
  | none => s
  | some act =>
    if act.type = ATool.polygon ∨ act.type = ATool.polyline then
      if act.type = ATool.polygon ∧ act.points.length < 3 then s
      else
        { s with
          annotations := s.annotations.map fun a =>
            if a.id = act.id then { act with completed := true } else a
          activeAnnot := none
          drawingPolygon := false
          selectedId := some act.id }
    else s

/-- `cancelDrawing` (lines 212-221). -/
def cancelDrawing (s : EngineState) : EngineState :=
  match s.activeAnnot with
  | none => s
  | some act =>
    { s with
      annotations := s.annotations.filter fun a => a.id ≠ act.id
      activeAnnot := none
      drawingPolygon := false }

/-- `deleteLastPoint` (lines 224-238): `Backspace` while drawing a
polygon/polyline. -/
def deleteLastPoint (s : EngineState) : EngineState :=
  match s.activeAnnot with
  | none => s
  | some act =>
    if act.type = ATool.polygon ∨ act.type = ATool.polyline then
      if act.points.length ≤ 1 then cancelDrawing s
      else updateActivePoints s act.points.dropLast
    else s

/-- `deleteSelected` (lines 241-253): `Delete` removes the annotation named by
the selection ref, else cancels the in-progress drawing. -/
def deleteSelected (s : EngineState) : EngineState :=
  match s.selectedId with
  | some sid =>
    { s with
      annotations := s.annotations.filter fun a => a.id ≠ sid
      selectedId := none }
  | none =>
    match s.activeAnnot with
    | some act =>
      { s with
        annotations := s.annotations.filter fun a => a.id ≠ act.id
        activeAnnot := none
        drawingPolygon := false }
    | none => s

/-- The geometry produced by the `handleMouseMove` drawing-continuation
branches (lines 896-917) from the anchor (first click) and the final mouse
position; `none` means the mouse never moved, leaving the single anchor point
from `handleMouseDown`. -/
def shapePoints (tool : ATool) (anchor : Pt) (movedTo : Option Pt) : List Pt :=
  match movedTo with
  | none => [anchor]
  | some pos =>
    if tool = ATool.rectangle then [anchor, ⟨pos.x, anchor.y⟩, pos, ⟨anchor.x, pos.y⟩]
    else if tool = ATool.circle then [anchor, pos]
    else if tool = ATool.ellipse then [anchor, ⟨pos.x, anchor.y⟩, ⟨anchor.x, pos.y⟩]
    else [anchor]

/-- One whole rectangle/circle/ellipse/point interaction:
`handleMouseDown` (lines 779-803: deselect all, append the new shape selected)
composed with the `handleMouseMove` geometry and the `handleMouseUp`
completion (lines 936-949).  `point` completes on the down event already. -/
def doCreateShape (s : EngineState) (tool : ATool) (anchor : Pt) (movedTo : Option Pt)
    (fid : String) : EngineState :=
  let newAnnot : Annot := ⟨fid, tool, shapePoints tool anchor movedTo, true, "default", true⟩
  { s with
    annotations := deselectAll s.annotations ++ [newAnnot]
    selectedId := some fid
    activeAnnot := none
    usedIds := s.usedIds ++ [fid] }

/-- The polygon/polyline branch of `handleMouseDown` (lines 738-777): start a
new in-progress shape on the first click, then close (click within `15/scale`
of the first vertex, polygon with ≥3 vertices) or append a vertex. -/
def doPolygonPress (s : EngineState) (tool : ATool) (pos : Pt) (fid : String) : EngineState :=
  if ¬(tool = ATool.polygon ∨ tool = ATool.polyline) then s
  else if s.drawingPolygon = false then
    let newAnnot : Annot := ⟨fid, tool, [pos], false, "default", true⟩
    { s with
      annotations := deselectAll s.annotations ++ [newAnnot]
      activeAnnot := some newAnnot
      drawingPolygon := true
      usedIds := s.usedIds ++ [fid] }
  else
    match s.activeAnnot with
    | none => s
    | some act =>
      if 2 < act.points.length ∧ act.type = ATool.polygon
          ∧ distLt pos (act.points.getD 0 dflt) (15 / s.scale) = true then
        completePolygon s
      else
        updateActivePoints s (act.points ++ [pos])

/-- `handleClick` (lines 965-985): the click event that follows a mouse-down
also appends (or closes, within `10/scale` of the first vertex). -/
def doPolygonClick (s : EngineState) (pos : Pt) : EngineState :=
  if s.drawingPolygon = false then s
  else
    match s.activeAnnot with
    | none => s
    | some act =>
      if act.type = ATool.polygon ∨ act.type = ATool.polyline then
        if act.type = ATool.polygon ∧ 2 < act.points.length
            ∧ distLt pos (act.points.getD 0 dflt) (10 / s.scale) = true then
          completePolygon s
        else
          updateActivePoints s (act.points ++ [pos])
      else s

/-- Selection by index: `setAnnotations(prev => prev.map((ann, idx) =>
({ ...ann, isSelected: idx === clickedAnnotationIndex })))` (lines 718-721). -/
def selectNth : ℕ → List Annot → List Annot
  | _, [] => []
  | 0, a :: as => { a with isSelected := true } :: deselectAll as
  | Nat.succ k, a :: as => { a with isSelected := false } :: selectNth k as

/-- The pointer-tool click on an annotation body (lines 716-722); `k` is the
index found by the hit test. -/
def doSelectClick (s : EngineState) (k : ℕ) : EngineState :=
  { s with
    annotations := selectNth k s.annotations
    selectedId := (s.annotations[k]?).map fun a => a.id }

/-- The pointer-tool click on empty canvas (lines 723-734): deselect all, but
only when the selection ref is set. -/
def doEmptyClick (s : EngineState) : EngineState :=
  match s.selectedId with
  | some _ =>
    { s with annotations := deselectAll s.annotations, selectedId := none }
  | none => s

/-- One whole control-point drag: the control-point branch of
`handleMouseDown` (lines 627-652: select the hit annotation by id, set the
drag refs) composed with the `handleMouseMove` geometry updates (applied to
every annotation sharing the dragged id) and the `handleMouseUp` release. -/
def doDrag (s : EngineState) (tid : String) (idx : ℕ) (movedTo : Option Pt) : EngineState :=
  let selected := s.annotations.map fun a => { a with isSelected := a.id == tid }
  let final :=
    match movedTo with
    | none => selected
    | some pos => selected.map fun a => if a.id = tid then dragControlPoint a idx pos else a
  { s with annotations := final, selectedId := some tid }

/-- Denormalisation of a response point: `{x: x * canvas.width,
y: y * canvas.height}` (lines 329-332). -/
def denormPoint (s : EngineState) (xy : ℚ × ℚ) : Pt :=
  ⟨xy.1 * s.canvasW, xy.2 * s.canvasH⟩

/-- The part of `handleAISegmentation` that runs before the request:
`onLoading(true)` (line 283). -/
def doAIStart (s : EngineState) : EngineState :=
  { s with loading := true }

/-- The resolution of a successful segmentation request
(`handleAISegmentation`, lines 322-362 plus the `finally`): an empty polygon
only clears the loading flag; otherwise denormalise, `simplifyPolygon` with
tolerance 2, and append the new completed polygon selected, deselecting all
others. -/
def doAISuccess (s : EngineState) (resp : SegResponse) (fid : String) : EngineState :=
  let s1 := doAIStart s
  if resp.polygon.isEmpty then { s1 with loading := false }
  else
    let simplified := simplifyPolygon (resp.polygon.map (denormPoint s)) 2
    let newAnnot : Annot := ⟨aiIdUsed resp fid, ATool.polygon, simplified, true, "default", true⟩
    { s1 with
      annotations := deselectAll s1.annotations ++ [newAnnot]
      selectedId := some newAnnot.id
      usedIds := s1.usedIds ++ [newAnnot.id]
      loading := false }

/-- The rejection of a segmentation request (`catch`/`finally`,
lines 363-367): surface the error, clear the loading flag, touch nothing
else. -/
def doAIFailure (s : EngineState) (msg : String) : EngineState :=
  { doAIStart s with errorMsg := some msg, loading := false }

/-- The possible outcomes of the `fetch` in `api.segmentFromPoint`
(`api.ts`): an HTTP response (with its `ok` flag, status text and parsed
body), an abort fired by the 60s timeout, or a network failure. -/
inductive FetchOutcome where
  | response (ok : Bool) (statusText : String) (body : SegResponse)
  | abort
  | failure (msg : String)
  deriving DecidableEq, Repr

/-- `api.segmentFromPoint` (`api.ts` lines 108-133) as a map from the fetch
outcome to the promise outcome: non-`ok` responses and aborts are converted
to thrown `Error`s, with the timeout message for `AbortError`. -/
def segmentFromPoint : FetchOutcome → Except String SegResponse
  | .response true _ body => .ok body
  | .response false st _ => .error ("Error performing segmentation: " ++ st)
  | .abort => .error "Segmentation request timed out. Please try again or use manual annotation."
  | .failure msg => .error msg

/-- Configuration of the operation relation: which environment assumptions the
claims add.  `aiFresh`: the id installed for an AI result (server-provided or
generated) has never been used before; `aiMin3`: nonempty AI responses
simplify to at least 3 vertices; `atomicDraw`: operations other than the
polygon-drawing flow only happen while no shape is in progress (events of
distinct interactions do not interleave). -/
structure StepCfg where
  aiFresh : Bool
  aiMin3 : Bool
  atomicDraw : Bool
  deriving DecidableEq, Repr

/-- The claims' operations as stated: generated ids are fresh (the
`generateUniqueId` contract), everything else unconstrained. -/
def cfgAsStated : StepCfg := ⟨false, false, false⟩

/-- Assumptions under which the completed-polygon size invariant (C3) holds. -/
def cfgPoly3 : StepCfg := ⟨true, true, false⟩

/-- Assumptions under which the single-selection invariant (C9) holds. -/
def cfgSel : StepCfg := ⟨true, false, true⟩

/-- One user-visible operation of the annotation engine.  Hit-testing is
abstracted into the hypotheses: a body click selects some completed
annotation's index, a control-point grab targets some completed annotation
with enough control points (any such is hittable by a suitable mouse
position, and any hit satisfies the hypothesis). -/
inductive Step (cfg : StepCfg) : EngineState → EngineState → Prop where
  | createShape (s : EngineState) (tool : ATool) (anchor : Pt) (movedTo : Option Pt) (fid : String)
      (htool : tool = ATool.rectangle ∨ tool = ATool.circle ∨ tool = ATool.ellipse ∨ tool = ATool.point)
      (hfid : fid ∉ s.usedIds)
      (hat : cfg.atomicDraw = true → s.activeAnnot = none) :
      Step cfg s (doCreateShape s tool anchor movedTo fid)
  | polygonPress (s : EngineState) (tool : ATool) (pos : Pt) (fid : String)
      (hfid : fid ∉ s.usedIds) :
      Step cfg s (doPolygonPress s tool pos fid)
  | polygonClick (s : EngineState) (pos : Pt) :
      Step cfg s (doPolygonClick s pos)
  | keyEnter (s : EngineState) : Step cfg s (completePolygon s)
  | keyEscape (s : EngineState) : Step cfg s (cancelDrawing s)
  | keyBackspace (s : EngineState) : Step cfg s (deleteLastPoint s)
  | keyDelete (s : EngineState) : Step cfg s (deleteSelected s)
  | selectClick (s : EngineState) (k : ℕ)
      (hk : ∃ a, s.annotations[k]? = some a ∧ a.completed = true)
      (hat : cfg.atomicDraw = true → s.activeAnnot = none) :
      Step cfg s (doSelectClick s k)
  | emptyClick (s : EngineState)
      (hat : cfg.atomicDraw = true → s.activeAnnot = none) :
      Step cfg s (doEmptyClick s)
  | dragControl (s : EngineState) (tid : String) (idx : ℕ) (movedTo : Option Pt)
      (hhit : ∃ a ∈ s.annotations, a.id = tid ∧ a.completed = true ∧ idx < (getControlPoints a).length)
      (hat : cfg.atomicDraw = true → s.activeAnnot = none) :
      Step cfg s (doDrag s tid idx movedTo)
  | aiSuccess (s : EngineState) (resp : SegResponse) (fid : String)
      (hfid : fid ∉ s.usedIds)
      (hfresh : cfg.aiFresh = true → aiIdUsed resp fid ∉ s.usedIds)
      (hmin3 : cfg.aiMin3 = true → resp.polygon ≠ [] →
        3 ≤ (simplifyPolygon (resp.polygon.map (denormPoint s)) 2).length)
      (hat : cfg.atomicDraw = true → s.activeAnnot = none) :
      Step cfg s (doAISuccess s resp fid)
  | aiFailure (s : EngineState) (msg : String) :
      Step cfg s (doAIFailure s msg)

/-- States reachable from a freshly loaded image by engine operations. -/
inductive Reachable (cfg : StepCfg) : EngineState → Prop where
  | init (w h : ℚ) : Reachable cfg (initState w h)
  | step {s t : EngineState} : Reachable cfg s → Step cfg s t → Reachable cfg t

/-- The ids of a list of annotations. -/
def idsOf (l : List Annot) : List String := l.map fun a => a.id

/-- C3's invariant: completed polygons have at least 3 vertices. -/
def polyOk (l : List Annot) : Prop :=
  ∀ a ∈ l, a.type = ATool.polygon → a.completed = true → 3 ≤ a.points.length

/-- Number of selected annotations. -/
def selCount (l : List Annot) : ℕ := l.countP fun a => a.isSelected

/-! ## Concrete instances used by counterexamples and witnesses -/

/-- A completed circle annotation `[center, edge]`. -/
def c5Circle : Annot := ⟨"c5", ATool.circle, [⟨0, 0⟩, ⟨10, 0⟩], true, "default", true⟩

/-- A segmentation response with a single-point polygon. -/
def c3Resp : SegResponse := ⟨true, [(1/2, 1/2)], some "seg-ai-1", false⟩

/-- State after the engine ingests `c3Resp` on a fresh 100×100 image. -/
def c3BadState : EngineState := doAISuccess (initState 100 100) c3Resp "gen-1"

/-- A segmentation response with a square polygon and a fixed server id. -/
def sqResp : SegResponse :=
  ⟨true, [(0, 0), (1/2, 0), (1/2, 1/2), (0, 1/2)], some "seg-dup", false⟩

/-- State after one ingestion of `sqResp` on a fresh 100×100 image. -/
def sqState1 : EngineState := doAISuccess (initState 100 100) sqResp "gen-2"

/-- The annotation `sqState1` holds. -/
def sqAnnot : Annot :=
  ⟨"seg-dup", ATool.polygon, [⟨0, 0⟩, ⟨50, 0⟩, ⟨50, 50⟩, ⟨0, 50⟩], true, "default", true⟩

/-- State after a second ingestion of `sqResp` (same server id). -/
def sqState2 : EngineState := doAISuccess sqState1 sqResp "gen-3"

/-- State after grabbing a control point of the annotation with id
`"seg-dup"` while two annotations carry that id. -/
def c9Bad : EngineState := doDrag sqState2 "seg-dup" 0 none

/-- The inductive invariant behind C3: ids are registered and duplicate-free,
every completed polygon has at least 3 vertices, and the active annotation is
an uncompleted polygon/polyline whose stored copies (same id) agree with it on
points, type and completedness. -/
def Inv3 (s : EngineState) : Prop :=
  (∀ a ∈ s.annotations, a.id ∈ s.usedIds)
  ∧ (idsOf s.annotations).Nodup
  ∧ polyOk s.annotations
  ∧ ∀ act, s.activeAnnot = some act →
      act.id ∈ s.usedIds
      ∧ (act.type = ATool.polygon ∨ act.type = ATool.polyline)
      ∧ act.completed = false
      ∧ ∀ a ∈ s.annotations, a.id = act.id →
          a.points = act.points ∧ a.type = act.type ∧ a.completed = false

/-- The inductive invariant behind C9: ids registered and duplicate-free, at
most one selected annotation, and while a shape is in progress the active
annotation is selected and only its stored copies may be selected. -/
def Inv9 (s : EngineState) : Prop :=
  (∀ a ∈ s.annotations, a.id ∈ s.usedIds)
  ∧ (idsOf s.annotations).Nodup
  ∧ selCount s.annotations ≤ 1
  ∧ ∀ act, s.activeAnnot = some act →
      act.isSelected = true
      ∧ ∀ a ∈ s.annotations, a.isSelected = true → a.id = act.id

/-! ## Helper lemmas -/

lemma chStarts_append (l m : List Char) : chStarts l (l ++ m) = true := by
  induction l with
  | nil => rfl
  | cons a as ih => simp [chStarts, ih]

lemma chStarts_self (l : List Char) : chStarts l l = true := by
  simpa using chStarts_append l []

lemma chFind_append_self (needle pre : List Char) : chFind needle (pre ++ needle) = true := by
  induction pre with
  | nil =>
    cases needle with
    | nil => rfl
    | cons c cs => simp [chFind, chStarts_self]
  | cons c cs ih => simp [chFind, ih]

lemma strStarts_append (p x : String) : strStarts (p ++ x) p = true := by
  simpa [strStarts, String.data_append] using chStarts_append p.data x.data

lemma strIncl_append_self (a b : String) : strIncl (a ++ b) b = true := by
  simpa [strIncl, String.data_append] using chFind_append_self b.data a.data

lemma simplifyLoop_sublist (tol : ℚ) :
    ∀ (l : List Pt) (prev : Pt), (simplifyLoop tol prev l).Sublist l := by
  intro l
  induction l with
  | nil => intro prev; simp [simplifyLoop]
  | cons c rest ih =>
    intro prev
    cases rest with
    | nil => simp [simplifyLoop]
    | cons n ns =>
      rw [simplifyLoop]
      by_cases h : keepPoint tol prev c n = true
      · simp only [h, if_true]
        exact (ih c).cons₂ c
      · simp only [h, if_false]
        exact (ih prev).cons c

lemma simplifyLoop_singleton (tol : ℚ) (prev x : Pt) :
    simplifyLoop tol prev [x] = [x] := by
  simp [simplifyLoop]

lemma simplifyLoop_cons_cons (tol : ℚ) (prev c n : Pt) (t : List Pt) :
    simplifyLoop tol prev (c :: n :: t) =
      if keepPoint tol prev c n then c :: simplifyLoop tol c (n :: t)
      else simplifyLoop tol prev (n :: t) := by
  simp [simplifyLoop]

lemma keptInterior_singleton (tol : ℚ) (prev c last : Pt) :
    keptInterior tol prev [c] last =
      if keepPoint tol prev c last then [c] else [] := by
  simp [keptInterior]

lemma keptInterior_cons_cons (tol : ℚ) (prev c n last : Pt) (t : List Pt) :
    keptInterior tol prev (c :: n :: t) last =
      if keepPoint tol prev c n then c :: keptInterior tol c (n :: t) last
      else keptInterior tol prev (n :: t) last := by
  simp [keptInterior]

lemma simplifyLoop_eq_keptInterior (tol : ℚ) :
    ∀ (interior : List Pt) (prev last : Pt),
      simplifyLoop tol prev (interior ++ [last]) = keptInterior tol prev interior last ++ [last] := by
  intro interior
  induction interior with
  | nil => intro prev last; simp [simplifyLoop, keptInterior]
  | cons c cs ih =>
    intro prev last
    cases cs with
    | nil =>
      simp only [List.cons_append, List.nil_append]
      rw [simplifyLoop_cons_cons, keptInterior_singleton]
      by_cases h : keepPoint tol prev c last = true
      · simp [h, simplifyLoop_singleton]
      · simp [h, simplifyLoop_singleton]
    | cons n ns =>
      simp only [List.cons_append]
      rw [simplifyLoop_cons_cons, keptInterior_cons_cons]
      by_cases h : keepPoint tol prev c n = true
      · rw [if_pos h, if_pos h]
        exact congrArg (c :: ·) (by simpa only [List.cons_append] using ih c last)
      · rw [if_neg h, if_neg h]
        simpa only [List.cons_append] using ih prev last

/-! ## Claim C1 -/

/-- C1: the AI-segmentation handler does **not** send
`clamp(((devicePoint - offset)/scale) / imageDimension, 0, 1)`.  At scale 2,
offset `(50, 0)`, a click at client `(100, 100)` over a 200×200 image is sent
as `(0, 1/8)`, while the claimed formula gives `(1/8, 1/4)`: the handler
re-applies the inverse viewport transform to a point `handleMouseDown` already
converted with `getCanvasCoords`, and divides the offset by the scale. -/
theorem C1_ai_normalization_bug :
    aiRequestCoords ⟨2, ⟨50, 0⟩⟩ 100 100 0 0 200 200 = ⟨0, 1 / 8⟩
    ∧ specNormalized ⟨2, ⟨50, 0⟩⟩ 100 100 0 0 200 200 = ⟨1 / 8, 1 / 4⟩
    ∧ aiRequestCoords ⟨2, ⟨50, 0⟩⟩ 100 100 0 0 200 200
        ≠ specNormalized ⟨2, ⟨50, 0⟩⟩ 100 100 0 0 200 200 := by
  refine ⟨?_, ?_, ?_⟩ <;>
    norm_num [aiRequestCoords, aiNormalized, aiAdjusted, getCanvasCoords, specNormalized,
      clampQ, Pt.mk.injEq]

/-! ## Claim C2 -/

/-- C2 counterexample: at the upper scale clamp the offset still moves, so the
logical point under the cursor shifts by `3/4` image pixel — far beyond any
floating-point epsilon.  (Scale 20, offset `(0,0)`, wheel-zoom-in at mouse
`(100, 100)`.) -/
theorem C2_counterexample :
    toLogical (handleWheel ⟨20, ⟨0, 0⟩⟩ ⟨100, 100⟩ true) ⟨100, 100⟩
        ≠ toLogical ⟨20, ⟨0, 0⟩⟩ ⟨100, 100⟩
    ∧ (toLogical (handleWheel ⟨20, ⟨0, 0⟩⟩ ⟨100, 100⟩ true) ⟨100, 100⟩).x
        - (toLogical ⟨20, ⟨0, 0⟩⟩ ⟨100, 100⟩).x = 3 / 4 := by
  constructor <;> norm_num [toLogical, handleWheel, zoomFactor, Pt.mk.injEq]

/-- C2 (amended): one wheel-zoom step at device point `p` leaves the logical
point under `p` exactly invariant, **provided the new scale is not clamped**,
i.e. `scale * zoomFactor ∈ [0.05, 20]`.  (In exact rational arithmetic the
invariance is exact, hence within any floating-point epsilon.) -/
theorem C2_zoom_cursor_invariant (v : Viewport) (mouse : Pt) (zoomIn : Bool)
    (hpos : 0 < v.scale)
    (hlo : 1 / 20 ≤ v.scale * zoomFactor zoomIn)
    (hhi : v.scale * zoomFactor zoomIn ≤ 20) :
    toLogical (handleWheel v mouse zoomIn) mouse = toLogical v mouse := by
  have hzf : zoomFactor zoomIn ≠ 0 := by cases zoomIn <;> norm_num [zoomFactor]
  have hs : v.scale ≠ 0 := ne_of_gt hpos
  simp only [handleWheel, toLogical]
  rw [min_eq_right hhi, max_eq_right hlo, Pt.mk.injEq]
  constructor <;> (field_simp; ring)

/-- Witness for C2: a concrete un-clamped zoom step. -/
theorem C2_zoom_cursor_invariant_witness :
    toLogical (handleWheel ⟨1, ⟨0, 0⟩⟩ ⟨10, 10⟩ true) ⟨10, 10⟩
      = toLogical ⟨1, ⟨0, 0⟩⟩ ⟨10, 10⟩ :=
  C2_zoom_cursor_invariant ⟨1, ⟨0, 0⟩⟩ ⟨10, 10⟩ true (by norm_num)
    (by norm_num [zoomFactor]) (by norm_num [zoomFactor])

/-! ## Claim C8 -/

/-- C8 counterexample: a 100×100 image in a 1000×1000 container.  The scale is
capped at 1, but the offset is computed from the uncapped fit scale `8.5`:
`resetView` yields offset 75, while centering at the resulting scale needs
`(1000 - 100·1)/2 = 450`. -/
theorem C8_counterexample :
    (resetView 1000 1000 100 100).scale = 1
    ∧ (resetView 1000 1000 100 100).offset.x = 75
    ∧ (1000 - 100 * (resetView 1000 1000 100 100).scale) / 2 = (450 : ℚ)
    ∧ (resetView 1000 1000 100 100).offset.x
        ≠ (1000 - 100 * (resetView 1000 1000 100 100).scale) / 2 := by
  refine ⟨?_, ?_, ?_, ?_⟩ <;> norm_num [resetView]

/-- C8 (amended): `resetView` sets
`scale = min (min(cw/iw, ch/ih) · 0.85) 1`, and computes the offset from the
**uncapped** fit scale; consequently the image is centred at the resulting
scale exactly when `min(cw/iw, ch/ih) · 0.85 ≤ 1` (the cap does not bind). -/
theorem C8_reset_fit (cw ch iw ihh : ℚ) (hiw : 0 < iw) (hih : 0 < ihh) :
    (resetView cw ch iw ihh).scale = min (min (cw / iw) (ch / ihh) * (85 / 100)) 1
    ∧ (min (cw / iw) (ch / ihh) * (85 / 100) ≤ 1 →
        resetView cw ch iw ihh =
          ⟨min (cw / iw) (ch / ihh) * (85 / 100),
           ⟨(cw - iw * (min (cw / iw) (ch / ihh) * (85 / 100))) / 2,
            (ch - ihh * (min (cw / iw) (ch / ihh) * (85 / 100))) / 2⟩⟩) := by
  constructor
  · simp [resetView]
  · intro hcap
    simp only [resetView]
    rw [min_eq_left hcap]

/-- Witness for C8: a 1600×1200 image in an 800×600 container (fit scale
`0.5 · 0.85 = 0.425 ≤ 1`). -/
theorem C8_reset_fit_witness :
    resetView 800 600 1600 1200 =
      ⟨min ((800 : ℚ) / 1600) (600 / 1200) * (85 / 100),
       ⟨(800 - 1600 * (min ((800 : ℚ) / 1600) (600 / 1200) * (85 / 100))) / 2,
        (600 - 1200 * (min ((800 : ℚ) / 1600) (600 / 1200) * (85 / 100))) / 2⟩⟩ :=
  (C8_reset_fit 800 600 1600 1200 (by norm_num) (by norm_num)).2 (by norm_num)

/-! ## Claim C4 -/

/-- C4 counterexample: for a prior id that *contains* but does not *end in*
`-modified`, the code keeps it unchanged (substring test `includes`), while
the claim's suffix rule would append `-modified`. -/
theorem C4_counterexample :
    createdAnnotId (some "a-modified-b") "7" = "a-modified-b"
    ∧ claimAnnotId (some "a-modified-b") "7" = "a-modified-b-modified"
    ∧ createdAnnotId (some "a-modified-b") "7" ≠ claimAnnotId (some "a-modified-b") "7" := by
  refine ⟨?_, ?_, ?_⟩ <;> decide

/-- C4 (amended): the id precedence of `createSegmentationFromManualPoints`,
with the `-modified` tests being *substring* (`includes`) tests rather than
suffix tests: no `manual-` prefix and no `-modified` substring → append
`-modified`; a `-modified` substring anywhere → unchanged; `manual-` prefix →
unchanged; no (or empty) prior id → mint `manual-<timestamp>`.  The operation
is idempotent on ids: re-editing never appends `-modified` twice. -/
theorem C4_id_lineage (s ts : String) :
    createdAnnotId none ts = "manual-" ++ ts
    ∧ (s ≠ "" → strStarts s "manual-" = false → strIncl s "-modified" = false →
        createdAnnotId (some s) ts = s ++ "-modified")
    ∧ (strIncl s "-modified" = true → createdAnnotId (some s) ts = s)
    ∧ (strStarts s "manual-" = true → strIncl s "-modified" = false →
        createdAnnotId (some s) ts = s)
    ∧ (∀ ts2 : String, createdAnnotId (some (createdAnnotId (some s) ts)) ts2
        = createdAnnotId (some s) ts) := by
  have hemp1 : strIncl "" "-modified" = false := by decide
  have hemp2 : strStarts "" "manual-" = false := by decide
  have hone : createdAnnotId none ts = "manual-" ++ ts := by
    simp [createdAnnotId, hemp1, hemp2]
  have happ : ∀ u : String, u ≠ "" → strStarts u "manual-" = false →
      strIncl u "-modified" = false → createdAnnotId (some u) ts = u ++ "-modified" := by
    intro u h1 h2 h3
    simp [createdAnnotId, h2, h3, bne_iff_ne, h1]
  have hincl : ∀ (u ts' : String), strIncl u "-modified" = true →
      createdAnnotId (some u) ts' = u := by
    intro u ts' h
    simp [createdAnnotId, h]
  have hman : ∀ (u ts' : String), strStarts u "manual-" = true →
      strIncl u "-modified" = false → createdAnnotId (some u) ts' = u := by
    intro u ts' h1 h2
    simp [createdAnnotId, h1, h2]
  refine ⟨hone, fun h1 h2 h3 => happ s h1 h2 h3, hincl s ts, hman s ts, ?_⟩
  intro ts2
  by_cases h3 : strIncl s "-modified" = true
  · rw [hincl s ts h3, hincl s ts2 h3]
  · have h3f : strIncl s "-modified" = false := by
      cases hx : strIncl s "-modified" <;> simp_all
    by_cases h2 : strStarts s "manual-" = true
    · rw [hman s ts h2 h3f, hman s ts2 h2 h3f]
    · have h2f : strStarts s "manual-" = false := by
        cases hx : strStarts s "manual-" <;> simp_all
      by_cases h1 : s = ""
      · subst h1
        have hr : createdAnnotId (some "") ts = "manual-" ++ ts := by
          simp [createdAnnotId, hemp1, hemp2]
        rw [hr]
        have hst : strStarts ("manual-" ++ ts) "manual-" = true := strStarts_append "manual-" ts
        by_cases hi : strIncl ("manual-" ++ ts) "-modified" = true
        · exact hincl _ ts2 hi
        · have hif : strIncl ("manual-" ++ ts) "-modified" = false := by
            cases hx : strIncl ("manual-" ++ ts) "-modified" <;> simp_all
          exact hman _ ts2 hst hif
      · rw [happ s h1 h2f h3f]
        exact hincl _ ts2 (strIncl_append_self s "-modified")

/-- Witness for C4: a fresh AI id gains `-modified`, an already-modified id
and a manual id are unchanged, and re-editing is idempotent. -/
theorem C4_id_lineage_witness :
    createdAnnotId (some "abc") "123" = "abc-modified"
    ∧ createdAnnotId (some "abc-modified") "456" = "abc-modified"
    ∧ createdAnnotId (some "manual-5") "9" = "manual-5" :=
  ⟨(C4_id_lineage "abc" "123").2.1 (by decide) (by decide) (by decide),
   (C4_id_lineage "abc-modified" "456").2.2.1 (by decide),
   (C4_id_lineage "manual-5" "9").2.2.2.1 (by decide) (by decide)⟩

/-! ## Claim C5 -/

/-- C5 counterexample: dragging the *center* control point (index 0) of the
circle `[(0,0), (10,0)]` to `(5,5)` yields `[(0,0), (5,5)]` — the center does
not move and the edge is overwritten — not the claimed translation
`[(5,5), (15,5)]`. -/
theorem C5_counterexample :
    (dragControlPoint c5Circle 0 ⟨5, 5⟩).points = [⟨0, 0⟩, ⟨5, 5⟩]
    ∧ (dragControlPoint c5Circle 0 ⟨5, 5⟩).points ≠ [(⟨5, 5⟩ : Pt), ⟨15, 5⟩] := by
  constructor <;> norm_num [dragControlPoint, c5Circle, Pt.mk.injEq]

/-- C5 (amended): for a circle annotation with points `[center, edge]`,
dragging **either** control point (any index) to `p` yields `[center, p]`:
the edge-drag half of the claim holds, but a center drag also just rewrites
the edge, leaving the center in place. -/
theorem C5_circle_drag (ann : Annot) (c e pos : Pt) (idx : ℕ)
    (htype : ann.type = ATool.circle) (hpts : ann.points = [c, e]) :
    (dragControlPoint ann idx pos).points = [c, pos] := by
  simp [dragControlPoint, htype, hpts]

/-- Witness for C5: dragging the edge control point of `c5Circle`. -/
theorem C5_circle_drag_witness :
    (dragControlPoint c5Circle 1 ⟨7, 3⟩).points = [⟨0, 0⟩, ⟨7, 3⟩] :=
  C5_circle_drag c5Circle ⟨0, 0⟩ ⟨10, 0⟩ ⟨7, 3⟩ 1 rfl rfl

/-! ## Claim C6 -/

/-- C6: whenever `api.segmentFromPoint` rejects (network failure, non-ok
response, or the 60s abort timer), the handler's failure path surfaces the
error, clears the loading flag, and leaves the annotation collection exactly
as it was: nothing is created, deleted, or mutated. -/
theorem C6_error_atomicity (s : EngineState) (fo : FetchOutcome) (msg : String)
    (h : segmentFromPoint fo = Except.error msg) :
    (doAIFailure s msg).annotations = s.annotations
    ∧ (doAIFailure s msg).loading = false
    ∧ (doAIFailure s msg).errorMsg = some msg
    ∧ (doAIFailure s msg).activeAnnot = s.activeAnnot
    ∧ (doAIFailure s msg).selectedId = s.selectedId :=
  ⟨rfl, rfl, rfl, rfl, rfl⟩

/-- Witness for C6: the abort outcome of the 60-second client timeout. -/
theorem C6_error_atomicity_witness :
    (doAIFailure (initState 100 100)
        "Segmentation request timed out. Please try again or use manual annotation.").annotations
      = (initState 100 100).annotations
    ∧ (doAIFailure (initState 100 100)
        "Segmentation request timed out. Please try again or use manual annotation.").loading = false
    ∧ (doAIFailure (initState 100 100)
        "Segmentation request timed out. Please try again or use manual annotation.").errorMsg
      = some "Segmentation request timed out. Please try again or use manual annotation."
    ∧ (doAIFailure (initState 100 100)
        "Segmentation request timed out. Please try again or use manual annotation.").activeAnnot
      = (initState 100 100).activeAnnot
    ∧ (doAIFailure (initState 100 100)
        "Segmentation request timed out. Please try again or use manual annotation.").selectedId
      = (initState 100 100).selectedId :=
  C6_error_atomicity (initState 100 100) FetchOutcome.abort
    "Segmentation request timed out. Please try again or use manual annotation." rfl

/-! ## Claim C7 -/

/-- C7 counterexample: on `c7Input` with `toleranceBase = 2`, the interior
point `(100, 0)` satisfies the claim's keep rule (distance `100 > 10` from the
last kept point) yet the code drops it: the code skips any interior point
whose adjacent segment is shorter than `0.0001` (here the segment to
`(100 + 1/20000, 0)`), a guard the claim's "kept exactly when" rule omits. -/
theorem C7_counterexample :
    simplifyPolygon c7Input 2 = [⟨0, 0⟩, ⟨100 + 1 / 20000, 0⟩, ⟨200, 0⟩]
    ∧ claimSimplify c7Input 2 = [⟨0, 0⟩, ⟨100, 0⟩, ⟨200, 0⟩]
    ∧ simplifyPolygon c7Input 2 ≠ claimSimplify c7Input 2 := by
  have h1 : simplifyPolygon c7Input 2 = [⟨0, 0⟩, ⟨100 + 1 / 20000, 0⟩, ⟨200, 0⟩] := by
    norm_num [simplifyPolygon, c7Input, simplifyLoop, keepPoint, shortSeg, dotBelow,
      distGt, sqDist, sqLen]
  have h2 : claimSimplify c7Input 2 = [⟨0, 0⟩, ⟨100, 0⟩, ⟨200, 0⟩] := by
    norm_num [claimSimplify, c7Input, claimSimplifyLoop, claimKeepPoint, dotBelow,
      distGt, sqDist, sqLen]
  refine ⟨h1, h2, ?_⟩
  rw [h1, h2]
  norm_num [Pt.mk.injEq]

/-- C7 (amended): `simplifyPolygon` keeps the first and last input points, and
selects interior points by the recursion of `keptInterior`: an interior point
is kept iff `keepPoint` holds against the last *kept* point — the claim's dot
product / distance rule guarded by the degenerate-segment skip (either
adjacent segment shorter than `0.0001` drops the point).  Inputs with fewer
than 3 points are returned unchanged. -/
theorem C7_preview_simplify (tol : ℚ) :
    (∀ (p0 last : Pt) (interior : List Pt),
        simplifyPolygon (p0 :: (interior ++ [last])) tol
          = p0 :: (keptInterior tol p0 interior last ++ [last]))
    ∧ (∀ points : List Pt, points.length < 3 → simplifyPolygon points tol = points) := by
  constructor
  · intro p0 last interior
    cases interior with
    | nil => simp [simplifyPolygon, keptInterior, simplifyLoop]
    | cons c cs =>
      have hlen : ¬ ((p0 :: (c :: cs ++ [last])).length < 3) := by
        simp only [List.length_cons, List.length_append, List.length_singleton]
        omega
      simp only [List.cons_append] at hlen ⊢
      rw [simplifyPolygon, if_neg hlen]
      rw [show (c :: (cs ++ [last])) = ((c :: cs) ++ [last]) from rfl]
      rw [simplifyLoop_eq_keptInterior]
  · intro points h
    simp [simplifyPolygon, h]

/-- Witness for C7: a two-point input is returned unchanged. -/
theorem C7_preview_simplify_witness :
    simplifyPolygon [(⟨3, 4⟩ : Pt), ⟨5, 6⟩] 2 = [(⟨3, 4⟩ : Pt), ⟨5, 6⟩] :=
  (C7_preview_simplify 2).2 [⟨3, 4⟩, ⟨5, 6⟩] (by norm_num)

/-! ## Claim C10 -/

/-- C10: the output of `simplifyPolygon` is an ordered subsequence of its
input: every output point is an input point, in the same relative order —
vertices are only dropped, never invented, moved, or reordered. -/
theorem C10_simplify_sublist (points : List Pt) (tol : ℚ) :
    (simplifyPolygon points tol).Sublist points := by
  by_cases h : points.length < 3
  · simp [simplifyPolygon, h]
  · cases points with
    | nil => simp [simplifyPolygon]
    | cons p0 rest =>
      rw [simplifyPolygon, if_neg h]
      exact (simplifyLoop_sublist tol rest p0).cons₂ p0

/-! ## List-level helpers for the state-machine invariants -/

lemma idsOf_nil : idsOf [] = [] := rfl

lemma idsOf_cons (a : Annot) (l : List Annot) : idsOf (a :: l) = a.id :: idsOf l := rfl

lemma idsOf_append (l m : List Annot) : idsOf (l ++ m) = idsOf l ++ idsOf m := by
  simp [idsOf]

lemma idsOf_map_id (f : Annot → Annot) (h : ∀ a, (f a).id = a.id) :
    ∀ l : List Annot, idsOf (l.map f) = idsOf l := by
  intro l
  induction l with
  | nil => rfl
  | cons a as ih => simp only [List.map_cons, idsOf_cons, h a, ih]

lemma idsOf_deselectAll (l : List Annot) : idsOf (deselectAll l) = idsOf l :=
  idsOf_map_id (fun a => { a with isSelected := false }) (fun _ => rfl) l

lemma mem_ids_map (f : Annot → Annot) (h : ∀ a, (f a).id = a.id) {l : List Annot}
    {u : List String} (hl : ∀ a ∈ l, a.id ∈ u) : ∀ a ∈ l.map f, a.id ∈ u := by
  intro a ha
  obtain ⟨b, hb, rfl⟩ := List.mem_map.mp ha
  rw [h b]
  exact hl b hb

lemma nodup_append_fresh {l : List Annot} {u : List String} {x : Annot}
    (hsub : ∀ a ∈ l, a.id ∈ u) (hn : (idsOf l).Nodup) (hx : x.id ∉ u) :
    (idsOf (l ++ [x])).Nodup := by
  rw [idsOf_append]
  rw [List.nodup_append]
  refine ⟨hn, List.nodup_singleton _, ?_⟩
  intro y hy
  simp only [idsOf] at hy
  obtain ⟨b, hb, rfl⟩ := List.mem_map.mp hy
  simp only [idsOf, List.map_cons, List.map_nil, List.mem_singleton]
  intro hcontra
  exact hx (hcontra ▸ hsub b hb)

lemma selCount_deselectAll (l : List Annot) : selCount (deselectAll l) = 0 := by
  induction l with
  | nil => rfl
  | cons a as ih => simpa [selCount, deselectAll, List.countP_cons] using ih

lemma selCount_append (l m : List Annot) : selCount (l ++ m) = selCount l + selCount m := by
  simp [selCount, List.countP_append]

lemma selCount_map_flag {f : Annot → Annot} (h : ∀ a, (f a).isSelected = a.isSelected) :
    ∀ l : List Annot, selCount (l.map f) = selCount l := by
  intro l
  induction l with
  | nil => rfl
  | cons a as ih => simp [selCount, List.countP_cons, h a] at ih ⊢; omega

lemma selCount_filter_le (p : Annot → Bool) (l : List Annot) :
    selCount (l.filter p) ≤ selCount l :=
  (l.filter_sublist).countP_le _

lemma nodup_filter_ids {p : Annot → Bool} {l : List Annot} (h : (idsOf l).Nodup) :
    (idsOf (l.filter p)).Nodup := by
  unfold idsOf at h ⊢
  exact ((l.filter_sublist).map (fun a => a.id)).nodup h

lemma countP_le_countP (p q : Annot → Bool) :
    ∀ l : List Annot, (∀ a ∈ l, p a = true → q a = true) →
      l.countP p ≤ l.countP q := by
  intro l
  induction l with
  | nil => intro _; simp
  | cons a as ih =>
    intro h
    have ha := h a (List.mem_cons_self a as)
    have has := ih fun b hb => h b (List.mem_cons_of_mem a hb)
    by_cases hp : p a = true
    · simp [List.countP_cons, hp, ha hp]; omega
    · simp only [List.countP_cons]
      by_cases hq : q a = true <;> simp [hp, hq] <;> omega

lemma countP_id_le_one {l : List Annot} (hn : (idsOf l).Nodup) (tid : String) :
    l.countP (fun a => a.id == tid) ≤ 1 := by
  have h1 : (idsOf l).countP (fun i => i == tid) = l.countP (fun a => a.id == tid) := by
    unfold idsOf
    rw [List.countP_map]
    rfl
  rw [← h1]
  have := List.nodup_iff_count_le_one.mp hn tid
  simpa [List.count] using this

lemma selCount_le_one_by_id {l : List Annot} (hn : (idsOf l).Nodup) (tid : String)
    (h : ∀ a ∈ l, a.isSelected = true → a.id = tid) : selCount l ≤ 1 := by
  have h2 : l.countP (fun a => a.isSelected) ≤ l.countP (fun a => a.id == tid) := by
    refine countP_le_countP _ _ l fun a ha hsel => ?_
    simpa using h a ha hsel
  exact le_trans h2 (countP_id_le_one hn tid)

lemma selectNth_ids : ∀ (k : ℕ) (l : List Annot), idsOf (selectNth k l) = idsOf l := by
  intro k l
  induction l generalizing k with
  | nil => cases k <;> rfl
  | cons a as ih =>
    cases k with
    | zero => simp [selectNth, idsOf_cons, idsOf_deselectAll]
    | succ k => simp [selectNth, idsOf_cons, ih k]

lemma selectNth_fields : ∀ (k : ℕ) (l : List Annot),
    ∀ a ∈ selectNth k l, ∃ b ∈ l,
      a.id = b.id ∧ a.type = b.type ∧ a.completed = b.completed ∧ a.points = b.points := by
  intro k l
  induction l generalizing k with
  | nil => intro a ha; cases k <;> simp [selectNth] at ha
  | cons x xs ih =>
    intro a ha
    cases k with
    | zero =>
      simp only [selectNth, List.mem_cons] at ha
      rcases ha with rfl | ha
      · exact ⟨x, List.mem_cons_self x xs, rfl, rfl, rfl, rfl⟩
      · obtain ⟨b, hb, rfl⟩ := List.mem_map.mp ha
        exact ⟨b, List.mem_cons_of_mem x hb, rfl, rfl, rfl, rfl⟩
    | succ k =>
      simp only [selectNth, List.mem_cons] at ha
      rcases ha with rfl | ha
      · exact ⟨x, List.mem_cons_self x xs, rfl, rfl, rfl, rfl⟩
      · obtain ⟨b, hb, hfields⟩ := ih k a ha
        exact ⟨b, List.mem_cons_of_mem x hb, hfields⟩

lemma selCount_cons (a : Annot) (l : List Annot) :
    selCount (a :: l) = selCount l + (if a.isSelected then 1 else 0) := by
  simp [selCount, List.countP_cons]

lemma selCount_selectNth : ∀ (k : ℕ) (l : List Annot), selCount (selectNth k l) ≤ 1 := by
  intro k l
  induction l generalizing k with
  | nil => cases k <;> simp [selectNth, selCount]
  | cons a as ih =>
    cases k with
    | zero =>
      rw [selectNth, selCount_cons, selCount_deselectAll]
      simp
    | succ k =>
      rw [selectNth, selCount_cons]
      simpa using ih k

lemma dragCP_id (a : Annot) (idx : ℕ) (pos : Pt) : (dragControlPoint a idx pos).id = a.id := by
  unfold dragControlPoint
  split
  · split <;> rfl
  · split
    · split <;> rfl
    · split
      · split
        · rfl
        · split
          · rfl
          · split <;> rfl
      · rfl

lemma dragCP_flag (a : Annot) (idx : ℕ) (pos : Pt) :
    (dragControlPoint a idx pos).isSelected = a.isSelected := by
  unfold dragControlPoint
  split
  · split <;> rfl
  · split
    · split <;> rfl
    · split
      · split
        · rfl
        · split
          · rfl
          · split <;> rfl
      · rfl

lemma dragCP_type (a : Annot) (idx : ℕ) (pos : Pt) :
    (dragControlPoint a idx pos).type = a.type := by
  unfold dragControlPoint
  split
  · split <;> rfl
  · split
    · split <;> rfl
    · split
      · split
        · rfl
        · split
          · rfl
          · split <;> rfl
      · rfl

lemma dragCP_completed (a : Annot) (idx : ℕ) (pos : Pt) :
    (dragControlPoint a idx pos).completed = a.completed := by
  unfold dragControlPoint
  split
  · split <;> rfl
  · split
    · split <;> rfl
    · split
      · split
        · rfl
        · split
          · rfl
          · split <;> rfl
      · rfl

lemma dragCP_polygon_length (a : Annot) (idx : ℕ) (pos : Pt)
    (h : a.type = ATool.polygon) :
    (dragControlPoint a idx pos).points.length = a.points.length := by
  unfold dragControlPoint
  have h1 : ¬ (a.type = ATool.rectangle ∧ a.points.length = 4) := by
    rw [h]; rintro ⟨hc, -⟩; exact absurd hc (by decide)
  have h2 : ¬ (a.type = ATool.circle ∧ a.points.length = 2) := by
    rw [h]; rintro ⟨hc, -⟩; exact absurd hc (by decide)
  have h3 : ¬ (a.type = ATool.ellipse ∧ 3 ≤ a.points.length) := by
    rw [h]; rintro ⟨hc, -⟩; exact absurd hc (by decide)
  rw [if_neg h1, if_neg h2, if_neg h3]
  simp


/-! ## Preservation of the single-selection invariant (C9) -/

lemma mem_ids_deselectAll {l : List Annot} {u : List String} (hl : ∀ a ∈ l, a.id ∈ u) :
    ∀ a ∈ deselectAll l, a.id ∈ u := by
  intro a ha
  simp only [deselectAll, List.mem_map] at ha
  obtain ⟨b, hb, rfl⟩ := ha
  exact hl b hb

lemma inv9_append_fresh {l : List Annot} {u : List String} {x : Annot}
    (hsub : ∀ a ∈ l, a.id ∈ u) (hnd : (idsOf l).Nodup) (hx : x.id ∉ u) :
    (∀ a ∈ deselectAll l ++ [x], a.id ∈ u ++ [x.id])
    ∧ (idsOf (deselectAll l ++ [x])).Nodup
    ∧ selCount (deselectAll l ++ [x]) ≤ 1
    ∧ ∀ a ∈ deselectAll l ++ [x], a.isSelected = true → a.id = x.id := by
  refine ⟨?_, ?_, ?_, ?_⟩
  · intro a ha
    rcases List.mem_append.mp ha with ha | ha
    · exact List.mem_append_left _ (mem_ids_deselectAll hsub a ha)
    · simp only [List.mem_singleton] at ha
      subst ha
      exact List.mem_append_right _ (by simp)
  · exact nodup_append_fresh (mem_ids_deselectAll hsub)
      (by rw [idsOf_deselectAll]; exact hnd) hx
  · rw [selCount_append, selCount_deselectAll, selCount_cons]
    split <;> simp [selCount]
  · intro a ha hsel
    rcases List.mem_append.mp ha with ha | ha
    · simp only [deselectAll, List.mem_map] at ha
      obtain ⟨b, hb, rfl⟩ := ha
      simp at hsel
    · simp only [List.mem_singleton] at ha
      subst ha
      rfl

lemma inv9_init (w h : ℚ) : Inv9 (initState w h) :=
  ⟨by simp [initState], by simp [initState, idsOf], by simp [initState, selCount],
   fun act h => by simp [initState] at h⟩

lemma inv9_aiFailure (s : EngineState) (msg : String) (hs : Inv9 s) :
    Inv9 (doAIFailure s msg) := hs

lemma inv9_createShape (s : EngineState) (tool : ATool) (anchor : Pt) (movedTo : Option Pt)
    (fid : String) (hs : Inv9 s) (hfid : fid ∉ s.usedIds) :
    Inv9 (doCreateShape s tool anchor movedTo fid) := by
  obtain ⟨hsub, hnd, hcnt, hact⟩ := hs
  obtain ⟨g1, g2, g3, g4⟩ := inv9_append_fresh hsub hnd
    (show (⟨fid, tool, shapePoints tool anchor movedTo, true, "default", true⟩ : Annot).id
      ∉ s.usedIds from hfid)
  exact ⟨g1, g2, g3, fun act h => Option.noConfusion h⟩

lemma inv9_updateActive (s : EngineState) (pts : List Pt) (hs : Inv9 s) :
    Inv9 (updateActivePoints s pts) := by
  obtain ⟨hsub, hnd, hcnt, hact⟩ := hs
  cases hA : s.activeAnnot with
  | none => simp only [updateActivePoints, hA]; exact ⟨hsub, hnd, hcnt, hact⟩
  | some act =>
    simp only [updateActivePoints, hA]
    have hid : ∀ a : Annot, ((if a.id = act.id then { a with points := pts } else a)).id = a.id := by
      intro a; split <;> rfl
    have hfl : ∀ a : Annot,
        ((if a.id = act.id then { a with points := pts } else a)).isSelected = a.isSelected := by
      intro a; split <;> rfl
    have hids : idsOf (s.annotations.map fun a =>
        if a.id = act.id then { a with points := pts } else a) = idsOf s.annotations :=
      idsOf_map_id _ hid s.annotations
    refine ⟨?_, ?_, ?_, ?_⟩
    · intro a ha
      obtain ⟨b, hb, rfl⟩ := List.mem_map.mp ha
      rw [hid b]
      exact hsub b hb
    · rw [hids]
      exact hnd
    · rw [show selCount (s.annotations.map fun a =>
          if a.id = act.id then { a with points := pts } else a) = selCount s.annotations
        from selCount_map_flag hfl s.annotations]
      exact hcnt
    · intro act' h
      simp only [Option.some.injEq] at h
      subst h
      obtain ⟨hsel, honly⟩ := hact act hA
      refine ⟨hsel, ?_⟩
      intro a ha hselA
      obtain ⟨b, hb, rfl⟩ := List.mem_map.mp ha
      rw [hfl b] at hselA
      rw [hid b]
      exact honly b hb hselA

lemma inv9_complete (s : EngineState) (hs : Inv9 s) : Inv9 (completePolygon s) := by
  obtain ⟨hsub, hnd, hcnt, hact⟩ := hs
  cases hA : s.activeAnnot with
  | none => simp only [completePolygon, hA]; exact ⟨hsub, hnd, hcnt, hact⟩
  | some act =>
    simp only [completePolygon, hA]
    by_cases hpoly : act.type = ATool.polygon ∨ act.type = ATool.polyline
    · rw [if_pos hpoly]
      by_cases hlen : act.type = ATool.polygon ∧ act.points.length < 3
      · rw [if_pos hlen]
        exact ⟨hsub, hnd, hcnt, hact⟩
      · rw [if_neg hlen]
        have hid : ∀ a : Annot,
            ((if a.id = act.id then { act with completed := true } else a)).id = a.id := by
          intro a
          split
          · rename_i h
            rw [← h]
          · rfl
        have hids : idsOf (s.annotations.map fun a =>
            if a.id = act.id then { act with completed := true } else a) = idsOf s.annotations :=
          idsOf_map_id _ hid s.annotations
        refine ⟨?_, ?_, ?_, ?_⟩
        · intro a ha
          obtain ⟨b, hb, rfl⟩ := List.mem_map.mp ha
          rw [hid b]
          exact hsub b hb
        · rw [hids]
          exact hnd
        · refine selCount_le_one_by_id ?_ act.id ?_
          · rw [hids]
            exact hnd
          · intro a ha hsel
            obtain ⟨b, hb, rfl⟩ := List.mem_map.mp ha
            rw [hid b]
            by_cases hbid : b.id = act.id
            · exact hbid
            · rw [if_neg hbid] at hsel
              exact (hact act hA).2 b hb hsel
        · intro act' h
          exact Option.noConfusion h
    · rw [if_neg hpoly]
      exact ⟨hsub, hnd, hcnt, hact⟩

lemma inv9_cancel (s : EngineState) (hs : Inv9 s) : Inv9 (cancelDrawing s) := by
  obtain ⟨hsub, hnd, hcnt, hact⟩ := hs
  cases hA : s.activeAnnot with
  | none => simp only [cancelDrawing, hA]; exact ⟨hsub, hnd, hcnt, hact⟩
  | some act =>
    simp only [cancelDrawing, hA]
    refine ⟨?_, nodup_filter_ids hnd, le_trans (selCount_filter_le _ _) hcnt, ?_⟩
    · intro a ha
      exact hsub a (List.mem_of_mem_filter ha)
    · intro act' h
      exact Option.noConfusion h

lemma inv9_deleteLast (s : EngineState) (hs : Inv9 s) : Inv9 (deleteLastPoint s) := by
  cases hA : s.activeAnnot with
  | none => simp only [deleteLastPoint, hA]; exact hs
  | some act =>
    simp only [deleteLastPoint, hA]
    by_cases h1 : act.type = ATool.polygon ∨ act.type = ATool.polyline
    · rw [if_pos h1]
      by_cases h2 : act.points.length ≤ 1
      · rw [if_pos h2]
        exact inv9_cancel s hs
      · rw [if_neg h2]
        exact inv9_updateActive s _ hs
    · rw [if_neg h1]
      exact hs

lemma inv9_deleteSelected (s : EngineState) (hs : Inv9 s) : Inv9 (deleteSelected s) := by
  obtain ⟨hsub, hnd, hcnt, hact⟩ := hs
  cases hSel : s.selectedId with
  | some sid =>
    simp only [deleteSelected, hSel]
    refine ⟨?_, nodup_filter_ids hnd, le_trans (selCount_filter_le _ _) hcnt, ?_⟩
    · intro a ha
      exact hsub a (List.mem_of_mem_filter ha)
    · intro act h
      obtain ⟨hsel2, honly⟩ := hact act h
      exact ⟨hsel2, fun a ha hs' => honly a (List.mem_of_mem_filter ha) hs'⟩
  | none =>
    simp only [deleteSelected, hSel]
    cases hA : s.activeAnnot with
    | some act =>
      refine ⟨?_, nodup_filter_ids hnd, le_trans (selCount_filter_le _ _) hcnt, ?_⟩
      · intro a ha
        exact hsub a (List.mem_of_mem_filter ha)
      · intro act' h
        exact Option.noConfusion h
    | none => exact ⟨hsub, hnd, hcnt, hact⟩

lemma inv9_selectClick (s : EngineState) (k : ℕ) (hs : Inv9 s)
    (hA : s.activeAnnot = none) : Inv9 (doSelectClick s k) := by
  obtain ⟨hsub, hnd, -, -⟩ := hs
  refine ⟨?_, ?_, selCount_selectNth k _, ?_⟩
  · intro a ha
    obtain ⟨b, hb, hid, -, -, -⟩ := selectNth_fields k s.annotations a ha
    rw [hid]
    exact hsub b hb
  · rw [show (doSelectClick s k).annotations = selectNth k s.annotations from rfl, selectNth_ids]
    exact hnd
  · intro act h
    have h2 : s.activeAnnot = some act := h
    rw [hA] at h2
    exact Option.noConfusion h2

lemma inv9_emptyClick (s : EngineState) (hs : Inv9 s) (hA : s.activeAnnot = none) :
    Inv9 (doEmptyClick s) := by
  obtain ⟨hsub, hnd, hcnt, hact⟩ := hs
  cases hSel : s.selectedId with
  | some sid =>
    simp only [doEmptyClick, hSel]
    refine ⟨mem_ids_deselectAll hsub, ?_, ?_, ?_⟩
    · rw [idsOf_deselectAll]
      exact hnd
    · rw [show selCount (deselectAll s.annotations) = 0 from selCount_deselectAll _]
      omega
    · intro act h
      have h2 : s.activeAnnot = some act := h
      rw [hA] at h2
      exact Option.noConfusion h2
  | none => simp only [doEmptyClick, hSel]; exact ⟨hsub, hnd, hcnt, hact⟩

lemma inv9_drag (s : EngineState) (tid : String) (idx : ℕ) (movedTo : Option Pt)
    (hs : Inv9 s) (hA : s.activeAnnot = none) : Inv9 (doDrag s tid idx movedTo) := by
  obtain ⟨hsub, hnd, -, -⟩ := hs
  cases movedTo with
  | none =>
    have hids : idsOf (s.annotations.map fun a => { a with isSelected := a.id == tid })
        = idsOf s.annotations :=
      idsOf_map_id (fun a => { a with isSelected := a.id == tid }) (fun _ => rfl) s.annotations
    refine ⟨?_, ?_, ?_, ?_⟩
    · intro a ha
      obtain ⟨b, hb, rfl⟩ := List.mem_map.mp ha
      exact hsub b hb
    · rw [show (doDrag s tid idx none).annotations
          = s.annotations.map (fun a => { a with isSelected := a.id == tid }) from rfl, hids]
      exact hnd
    · refine selCount_le_one_by_id ?_ tid ?_
      · rw [show (doDrag s tid idx none).annotations
            = s.annotations.map (fun a => { a with isSelected := a.id == tid }) from rfl, hids]
        exact hnd
      · intro a ha hsel
        obtain ⟨b, hb, rfl⟩ := List.mem_map.mp ha
        exact eq_of_beq hsel
    · intro act h
      have h2 : s.activeAnnot = some act := h
      rw [hA] at h2
      exact Option.noConfusion h2
  | some pos =>
    have hgid : ∀ a : Annot,
        ((if a.id = tid then dragControlPoint a idx pos else a)).id = a.id := by
      intro a
      split
      · exact dragCP_id a idx pos
      · rfl
    have hgfl : ∀ a : Annot,
        ((if a.id = tid then dragControlPoint a idx pos else a)).isSelected = a.isSelected := by
      intro a
      split
      · exact dragCP_flag a idx pos
      · rfl
    have hids : idsOf ((s.annotations.map fun a => { a with isSelected := a.id == tid }).map
          fun a => if a.id = tid then dragControlPoint a idx pos else a)
        = idsOf s.annotations := by
      rw [idsOf_map_id _ hgid,
        idsOf_map_id (fun a => { a with isSelected := a.id == tid }) (fun _ => rfl)]
    refine ⟨?_, ?_, ?_, ?_⟩
    · intro a ha
      obtain ⟨b, hb, rfl⟩ := List.mem_map.mp ha
      obtain ⟨c, hc, rfl⟩ := List.mem_map.mp hb
      rw [hgid]
      exact hsub c hc
    · rw [show (doDrag s tid idx (some pos)).annotations
          = (s.annotations.map fun a => { a with isSelected := a.id == tid }).map
              (fun a => if a.id = tid then dragControlPoint a idx pos else a) from rfl, hids]
      exact hnd
    · refine selCount_le_one_by_id ?_ tid ?_
      · rw [show (doDrag s tid idx (some pos)).annotations
            = (s.annotations.map fun a => { a with isSelected := a.id == tid }).map
                (fun a => if a.id = tid then dragControlPoint a idx pos else a) from rfl, hids]
        exact hnd
      · intro a ha hsel
        obtain ⟨b, hb, rfl⟩ := List.mem_map.mp ha
        obtain ⟨c, hc, rfl⟩ := List.mem_map.mp hb
        rw [hgfl] at hsel
        rw [hgid]
        exact eq_of_beq hsel
    · intro act h
      have h2 : s.activeAnnot = some act := h
      rw [hA] at h2
      exact Option.noConfusion h2

lemma inv9_polygonPress (s : EngineState) (tool : ATool) (pos : Pt) (fid : String)
    (hs : Inv9 s) (hfid : fid ∉ s.usedIds) : Inv9 (doPolygonPress s tool pos fid) := by
  obtain ⟨hsub, hnd, hcnt, hact⟩ := hs
  simp only [doPolygonPress]
  by_cases h1 : tool = ATool.polygon ∨ tool = ATool.polyline
  · rw [if_neg (not_not_intro h1)]
    by_cases h2 : s.drawingPolygon = false
    · rw [if_pos h2]
      obtain ⟨g1, g2, g3, g4⟩ := inv9_append_fresh hsub hnd
        (show (⟨fid, tool, [pos], false, "default", true⟩ : Annot).id ∉ s.usedIds from hfid)
      refine ⟨g1, g2, g3, ?_⟩
      intro act h
      simp only [Option.some.injEq] at h
      subst h
      exact ⟨rfl, g4⟩
    · rw [if_neg h2]
      split
      · exact ⟨hsub, hnd, hcnt, hact⟩
      · split_ifs with h3
        · exact inv9_complete s ⟨hsub, hnd, hcnt, hact⟩
        · exact inv9_updateActive s _ ⟨hsub, hnd, hcnt, hact⟩
  · rw [if_pos h1]
    exact ⟨hsub, hnd, hcnt, hact⟩

lemma inv9_polygonClick (s : EngineState) (pos : Pt) (hs : Inv9 s) :
    Inv9 (doPolygonClick s pos) := by
  simp only [doPolygonClick]
  by_cases h1 : s.drawingPolygon = false
  · rw [if_pos h1]
    exact hs
  · rw [if_neg h1]
    split
    · exact hs
    · split_ifs with h2 h3
      · exact inv9_complete s hs
      · exact inv9_updateActive s _ hs
      · exact hs

lemma inv9_aiSuccess (s : EngineState) (resp : SegResponse) (fid : String)
    (hs : Inv9 s) (hfresh : aiIdUsed resp fid ∉ s.usedIds) (hA : s.activeAnnot = none) :
    Inv9 (doAISuccess s resp fid) := by
  obtain ⟨hsub, hnd, hcnt, hact⟩ := hs
  simp only [doAISuccess, doAIStart]
  by_cases hpoly : resp.polygon.isEmpty = true
  · rw [if_pos hpoly]
    exact ⟨hsub, hnd, hcnt, hact⟩
  · rw [if_neg hpoly]
    obtain ⟨g1, g2, g3, g4⟩ := inv9_append_fresh hsub hnd
      (show (⟨aiIdUsed resp fid, ATool.polygon,
          simplifyPolygon (resp.polygon.map (denormPoint s)) 2, true, "default",
          true⟩ : Annot).id ∉ s.usedIds from hfresh)
    refine ⟨g1, g2, g3, ?_⟩
    intro act h
    have h2 : s.activeAnnot = some act := h
    rw [hA] at h2
    exact Option.noConfusion h2

lemma inv9_step {s t : EngineState} (hs : Inv9 s) (hst : Step cfgSel s t) : Inv9 t := by
  cases hst with
  | createShape tool anchor movedTo fid htool hfid hat =>
    exact inv9_createShape s tool anchor movedTo fid hs hfid
  | polygonPress tool pos fid hfid => exact inv9_polygonPress s tool pos fid hs hfid
  | polygonClick pos => exact inv9_polygonClick s pos hs
  | keyEnter => exact inv9_complete s hs
  | keyEscape => exact inv9_cancel s hs
  | keyBackspace => exact inv9_deleteLast s hs
  | keyDelete => exact inv9_deleteSelected s hs
  | selectClick k hk hat => exact inv9_selectClick s k hs (hat rfl)
  | emptyClick hat => exact inv9_emptyClick s hs (hat rfl)
  | dragControl tid idx movedTo hhit hat => exact inv9_drag s tid idx movedTo hs (hat rfl)
  | aiSuccess resp fid hfid hfresh hmin3 hat =>
    exact inv9_aiSuccess s resp fid hs (hfresh rfl) (hat rfl)
  | aiFailure msg => exact inv9_aiFailure s msg hs

lemma reachable_inv9 {s : EngineState} (h : Reachable cfgSel s) : Inv9 s := by
  induction h with
  | init w h => exact inv9_init w h
  | step hr hst ih => exact inv9_step ih hst

/-! ## Preservation of the completed-polygon-size invariant (C3) -/

lemma polyOk_map_fields {l : List Annot} {f : Annot → Annot}
    (hf : ∀ a ∈ l, (f a).type = a.type ∧ (f a).completed = a.completed ∧ (f a).points = a.points)
    (h : polyOk l) : polyOk (l.map f) := by
  intro a ha ht hc
  obtain ⟨b, hb, rfl⟩ := List.mem_map.mp ha
  obtain ⟨e1, e2, e3⟩ := hf b hb
  rw [e3]
  rw [e1] at ht
  rw [e2] at hc
  exact h b hb ht hc

lemma polyOk_filter {l : List Annot} {p : Annot → Bool} (h : polyOk l) :
    polyOk (l.filter p) :=
  fun a ha ht hc => h a (List.mem_of_mem_filter ha) ht hc

lemma polyOk_deselectAll {l : List Annot} (h : polyOk l) : polyOk (deselectAll l) :=
  polyOk_map_fields (fun _ _ => ⟨rfl, rfl, rfl⟩) h

lemma polyOk_selectNth {l : List Annot} (k : ℕ) (h : polyOk l) : polyOk (selectNth k l) := by
  intro a ha ht hc
  obtain ⟨b, hb, -, e2, e3, e4⟩ := selectNth_fields k l a ha
  rw [e4]
  rw [e2] at ht
  rw [e3] at hc
  exact h b hb ht hc

lemma inv3_init (w h : ℚ) : Inv3 (initState w h) :=
  ⟨by simp [initState], by simp [initState, idsOf], fun a ha => by simp [initState] at ha,
   fun act h => by simp [initState] at h⟩

lemma inv3_aiFailure (s : EngineState) (msg : String) (hs : Inv3 s) :
    Inv3 (doAIFailure s msg) := hs

lemma inv3_createShape (s : EngineState) (tool : ATool) (anchor : Pt) (movedTo : Option Pt)
    (fid : String) (hs : Inv3 s)
    (htool : tool = ATool.rectangle ∨ tool = ATool.circle ∨ tool = ATool.ellipse
      ∨ tool = ATool.point)
    (hfid : fid ∉ s.usedIds) :
    Inv3 (doCreateShape s tool anchor movedTo fid) := by
  obtain ⟨hsub, hnd, hpol, hact⟩ := hs
  refine ⟨?_, ?_, ?_, fun act h => Option.noConfusion h⟩
  · intro a ha
    rcases List.mem_append.mp ha with ha | ha
    · exact List.mem_append_left _ (mem_ids_deselectAll hsub a ha)
    · simp only [List.mem_singleton] at ha
      subst ha
      exact List.mem_append_right _ (by simp)
  · exact nodup_append_fresh (mem_ids_deselectAll hsub)
      (by rw [idsOf_deselectAll]; exact hnd) hfid
  · intro a ha ht hc
    rcases List.mem_append.mp ha with ha | ha
    · exact polyOk_deselectAll hpol a ha ht hc
    · simp only [List.mem_singleton] at ha
      subst ha
      rcases htool with h | h | h | h <;> rw [show (_ : Annot).type = tool from rfl, h] at ht <;>
        exact absurd ht (by decide)

lemma inv3_updateActive (s : EngineState) (pts : List Pt) (hs : Inv3 s) :
    Inv3 (updateActivePoints s pts) := by
  obtain ⟨hsub, hnd, hpol, hact⟩ := hs
  cases hA : s.activeAnnot with
  | none => simp only [updateActivePoints, hA]; exact ⟨hsub, hnd, hpol, hact⟩
  | some act =>
    obtain ⟨hidu, hply, hcmp, hsync⟩ := hact act hA
    simp only [updateActivePoints, hA]
    have hid : ∀ a : Annot, ((if a.id = act.id then { a with points := pts } else a)).id = a.id := by
      intro a; split <;> rfl
    refine ⟨?_, ?_, ?_, ?_⟩
    · intro a ha
      obtain ⟨b, hb, rfl⟩ := List.mem_map.mp ha
      rw [hid b]
      exact hsub b hb
    · rw [idsOf_map_id _ hid s.annotations]
      exact hnd
    · intro a ha ht hc
      obtain ⟨b, hb, rfl⟩ := List.mem_map.mp ha
      by_cases hbid : b.id = act.id
      · rw [if_pos hbid] at ht hc ⊢
        obtain ⟨-, -, e3⟩ := hsync b hb hbid
        rw [show ({ b with points := pts } : Annot).completed = b.completed from rfl] at hc
        rw [e3] at hc
        cases hc
      · rw [if_neg hbid] at ht hc ⊢
        exact hpol b hb ht hc
    · intro act' h
      simp only [Option.some.injEq] at h
      subst h
      refine ⟨hidu, hply, hcmp, ?_⟩
      intro a ha haid
      obtain ⟨b, hb, rfl⟩ := List.mem_map.mp ha
      rw [hid b] at haid
      obtain ⟨-, e2, e3⟩ := hsync b hb haid
      rw [if_pos haid]
      exact ⟨rfl, e2, e3⟩

lemma inv3_complete (s : EngineState) (hs : Inv3 s) : Inv3 (completePolygon s) := by
  obtain ⟨hsub, hnd, hpol, hact⟩ := hs
  cases hA : s.activeAnnot with
  | none => simp only [completePolygon, hA]; exact ⟨hsub, hnd, hpol, hact⟩
  | some act =>
    obtain ⟨hidu, hply, hcmp, hsync⟩ := hact act hA
    simp only [completePolygon, hA]
    rw [if_pos hply]
    by_cases hlen : act.type = ATool.polygon ∧ act.points.length < 3
    · rw [if_pos hlen]
      exact ⟨hsub, hnd, hpol, hact⟩
    · rw [if_neg hlen]
      have hid : ∀ a : Annot,
          ((if a.id = act.id then { act with completed := true } else a)).id = a.id := by
        intro a
        split
        · rename_i h
          rw [← h]
        · rfl
      refine ⟨?_, ?_, ?_, fun act' h => Option.noConfusion h⟩
      · intro a ha
        obtain ⟨b, hb, rfl⟩ := List.mem_map.mp ha
        rw [hid b]
        exact hsub b hb
      · rw [idsOf_map_id _ hid s.annotations]
        exact hnd
      · intro a ha ht hc
        obtain ⟨b, hb, rfl⟩ := List.mem_map.mp ha
        by_cases hbid : b.id = act.id
        · rw [if_pos hbid] at ht ⊢
          rw [show ({ act with completed := true } : Annot).type = act.type from rfl] at ht
          rw [show ({ act with completed := true } : Annot).points = act.points from rfl]
          have := not_and.mp hlen ht
          omega
        · rw [if_neg hbid] at ht hc ⊢
          exact hpol b hb ht hc

lemma inv3_cancel (s : EngineState) (hs : Inv3 s) : Inv3 (cancelDrawing s) := by
  obtain ⟨hsub, hnd, hpol, hact⟩ := hs
  cases hA : s.activeAnnot with
  | none => simp only [cancelDrawing, hA]; exact ⟨hsub, hnd, hpol, hact⟩
  | some act =>
    simp only [cancelDrawing, hA]
    exact ⟨fun a ha => hsub a (List.mem_of_mem_filter ha), nodup_filter_ids hnd,
      polyOk_filter hpol, fun act' h => Option.noConfusion h⟩

lemma inv3_deleteLast (s : EngineState) (hs : Inv3 s) : Inv3 (deleteLastPoint s) := by
  cases hA : s.activeAnnot with
  | none => simp only [deleteLastPoint, hA]; exact hs
  | some act =>
    simp only [deleteLastPoint, hA]
    by_cases h1 : act.type = ATool.polygon ∨ act.type = ATool.polyline
    · rw [if_pos h1]
      by_cases h2 : act.points.length ≤ 1
      · rw [if_pos h2]
        exact inv3_cancel s hs
      · rw [if_neg h2]
        exact inv3_updateActive s _ hs
    · rw [if_neg h1]
      exact hs

lemma inv3_deleteSelected (s : EngineState) (hs : Inv3 s) : Inv3 (deleteSelected s) := by
  obtain ⟨hsub, hnd, hpol, hact⟩ := hs
  cases hSel : s.selectedId with
  | some sid =>
    simp only [deleteSelected, hSel]
    refine ⟨fun a ha => hsub a (List.mem_of_mem_filter ha), nodup_filter_ids hnd,
      polyOk_filter hpol, ?_⟩
    intro act h
    obtain ⟨hidu, hply, hcmp, hsync⟩ := hact act h
    exact ⟨hidu, hply, hcmp, fun a ha haid => hsync a (List.mem_of_mem_filter ha) haid⟩
  | none =>
    simp only [deleteSelected, hSel]
    cases hA : s.activeAnnot with
    | some act =>
      exact ⟨fun a ha => hsub a (List.mem_of_mem_filter ha), nodup_filter_ids hnd,
        polyOk_filter hpol, fun act' h => Option.noConfusion h⟩
    | none => exact ⟨hsub, hnd, hpol, hact⟩

lemma inv3_selectClick (s : EngineState) (k : ℕ) (hs : Inv3 s) : Inv3 (doSelectClick s k) := by
  obtain ⟨hsub, hnd, hpol, hact⟩ := hs
  refine ⟨?_, ?_, polyOk_selectNth k hpol, ?_⟩
  · intro a ha
    obtain ⟨b, hb, hidq, -, -, -⟩ := selectNth_fields k s.annotations a ha
    rw [hidq]
    exact hsub b hb
  · rw [show (doSelectClick s k).annotations = selectNth k s.annotations from rfl, selectNth_ids]
    exact hnd
  · intro act h
    have h2 : s.activeAnnot = some act := h
    obtain ⟨hidu, hply, hcmp, hsync⟩ := hact act h2
    refine ⟨hidu, hply, hcmp, ?_⟩
    intro a ha haid
    obtain ⟨b, hb, e1, e2, e3, e4⟩ := selectNth_fields k s.annotations a ha
    rw [e1] at haid
    obtain ⟨f1, f2, f3⟩ := hsync b hb haid
    exact ⟨e4.trans f1, e2.trans f2, e3.trans f3⟩

lemma inv3_emptyClick (s : EngineState) (hs : Inv3 s) : Inv3 (doEmptyClick s) := by
  obtain ⟨hsub, hnd, hpol, hact⟩ := hs
  cases hSel : s.selectedId with
  | some sid =>
    simp only [doEmptyClick, hSel]
    refine ⟨mem_ids_deselectAll hsub, by rw [idsOf_deselectAll]; exact hnd,
      polyOk_deselectAll hpol, ?_⟩
    intro act h
    have h2 : s.activeAnnot = some act := h
    obtain ⟨hidu, hply, hcmp, hsync⟩ := hact act h2
    refine ⟨hidu, hply, hcmp, ?_⟩
    intro a ha haid
    simp only [deselectAll, List.mem_map] at ha
    obtain ⟨b, hb, rfl⟩ := ha
    exact hsync b hb haid
  | none => simp only [doEmptyClick, hSel]; exact ⟨hsub, hnd, hpol, hact⟩

lemma inv3_drag (s : EngineState) (tid : String) (idx : ℕ) (movedTo : Option Pt)
    (hs : Inv3 s)
    (hhit : ∃ a ∈ s.annotations, a.id = tid ∧ a.completed = true
      ∧ idx < (getControlPoints a).length) :
    Inv3 (doDrag s tid idx movedTo) := by
  obtain ⟨hsub, hnd, hpol, hact⟩ := hs
  have htid : ∀ act, s.activeAnnot = some act → tid ≠ act.id := by
    intro act hA heq
    obtain ⟨-, -, -, hsync⟩ := hact act hA
    obtain ⟨a0, ha0, hid0, hcomp0, -⟩ := hhit
    obtain ⟨-, -, hfalse⟩ := hsync a0 ha0 (hid0.trans heq)
    rw [hcomp0] at hfalse
    cases hfalse
  cases movedTo with
  | none =>
    have hids : idsOf (s.annotations.map fun a => { a with isSelected := a.id == tid })
        = idsOf s.annotations :=
      idsOf_map_id (fun a => { a with isSelected := a.id == tid }) (fun _ => rfl) s.annotations
    refine ⟨?_, ?_, ?_, ?_⟩
    · intro a ha
      obtain ⟨b, hb, rfl⟩ := List.mem_map.mp ha
      exact hsub b hb
    · rw [show (doDrag s tid idx none).annotations
          = s.annotations.map (fun a => { a with isSelected := a.id == tid }) from rfl, hids]
      exact hnd
    · exact polyOk_map_fields (fun _ _ => ⟨rfl, rfl, rfl⟩) hpol
    · intro act h
      have h2 : s.activeAnnot = some act := h
      obtain ⟨hidu, hply, hcmp, hsync⟩ := hact act h2
      refine ⟨hidu, hply, hcmp, ?_⟩
      intro a ha haid
      obtain ⟨b, hb, rfl⟩ := List.mem_map.mp ha
      exact hsync b hb haid
  | some pos =>
    have hgid : ∀ a : Annot,
        ((if a.id = tid then dragControlPoint a idx pos else a)).id = a.id := by
      intro a
      split
      · exact dragCP_id a idx pos
      · rfl
    have hids : idsOf ((s.annotations.map fun a => { a with isSelected := a.id == tid }).map
          fun a => if a.id = tid then dragControlPoint a idx pos else a)
        = idsOf s.annotations := by
      rw [idsOf_map_id _ hgid,
        idsOf_map_id (fun a => { a with isSelected := a.id == tid }) (fun _ => rfl)]
    refine ⟨?_, ?_, ?_, ?_⟩
    · intro a ha
      obtain ⟨b, hb, rfl⟩ := List.mem_map.mp ha
      obtain ⟨c, hc, rfl⟩ := List.mem_map.mp hb
      rw [hgid]
      exact hsub c hc
    · rw [show (doDrag s tid idx (some pos)).annotations
          = (s.annotations.map fun a => { a with isSelected := a.id == tid }).map
              (fun a => if a.id = tid then dragControlPoint a idx pos else a) from rfl, hids]
      exact hnd
    · intro a ha ht hc
      obtain ⟨b, hb, rfl⟩ := List.mem_map.mp ha
      obtain ⟨c, hc2, rfl⟩ := List.mem_map.mp hb
      by_cases hcid : ({ c with isSelected := c.id == tid } : Annot).id = tid
      · rw [if_pos hcid] at ht hc ⊢
        rw [dragCP_type] at ht
        rw [dragCP_completed] at hc
        rw [dragCP_polygon_length _ _ _ ht]
        exact hpol c hc2 ht hc
      · rw [if_neg hcid] at ht hc ⊢
        exact hpol c hc2 ht hc
    · intro act h
      have h2 : s.activeAnnot = some act := h
      obtain ⟨hidu, hply, hcmp, hsync⟩ := hact act h2
      refine ⟨hidu, hply, hcmp, ?_⟩
      intro a ha haid
      obtain ⟨b, hb, rfl⟩ := List.mem_map.mp ha
      obtain ⟨c, hc, rfl⟩ := List.mem_map.mp hb
      rw [hgid] at haid
      have hcid : ¬ (({ c with isSelected := c.id == tid } : Annot).id = tid) := by
        rw [show ({ c with isSelected := c.id == tid } : Annot).id = c.id from rfl, haid]
        exact fun hq => htid act h2 hq.symm
      rw [if_neg hcid]
      exact hsync c hc haid

lemma inv3_polygonPress (s : EngineState) (tool : ATool) (pos : Pt) (fid : String)
    (hs : Inv3 s) (hfid : fid ∉ s.usedIds) : Inv3 (doPolygonPress s tool pos fid) := by
  obtain ⟨hsub, hnd, hpol, hact⟩ := hs
  simp only [doPolygonPress]
  by_cases h1 : tool = ATool.polygon ∨ tool = ATool.polyline
  · rw [if_neg (not_not_intro h1)]
    by_cases h2 : s.drawingPolygon = false
    · rw [if_pos h2]
      refine ⟨?_, ?_, ?_, ?_⟩
      · intro a ha
        rcases List.mem_append.mp ha with ha | ha
        · exact List.mem_append_left _ (mem_ids_deselectAll hsub a ha)
        · simp only [List.mem_singleton] at ha
          subst ha
          exact List.mem_append_right _ (by simp)
      · exact nodup_append_fresh (mem_ids_deselectAll hsub)
          (by rw [idsOf_deselectAll]; exact hnd) hfid
      · intro a ha ht hc
        rcases List.mem_append.mp ha with ha | ha
        · exact polyOk_deselectAll hpol a ha ht hc
        · simp only [List.mem_singleton] at ha
          subst ha
          cases hc
      · intro act h
        simp only [Option.some.injEq] at h
        subst h
        refine ⟨List.mem_append_right _ (by simp), h1, rfl, ?_⟩
        intro a ha haid
        rcases List.mem_append.mp ha with ha | ha
        · simp only [deselectAll, List.mem_map] at ha
          obtain ⟨b, hb, rfl⟩ := ha
          have hb2 : b.id = fid := haid
          exact absurd (hb2 ▸ hsub b hb) hfid
        · simp only [List.mem_singleton] at ha
          subst ha
          exact ⟨rfl, rfl, rfl⟩
    · rw [if_neg h2]
      split
      · exact ⟨hsub, hnd, hpol, hact⟩
      · split_ifs with h3
        · exact inv3_complete s ⟨hsub, hnd, hpol, hact⟩
        · exact inv3_updateActive s _ ⟨hsub, hnd, hpol, hact⟩
  · rw [if_pos h1]
    exact ⟨hsub, hnd, hpol, hact⟩

lemma inv3_polygonClick (s : EngineState) (pos : Pt) (hs : Inv3 s) :
    Inv3 (doPolygonClick s pos) := by
  simp only [doPolygonClick]
  by_cases h1 : s.drawingPolygon = false
  · rw [if_pos h1]
    exact hs
  · rw [if_neg h1]
    split
    · exact hs
    · split_ifs with h2 h3
      · exact inv3_complete s hs
      · exact inv3_updateActive s _ hs
      · exact hs

lemma inv3_aiSuccess (s : EngineState) (resp : SegResponse) (fid : String)
    (hs : Inv3 s) (hfresh : aiIdUsed resp fid ∉ s.usedIds)
    (hmin3 : resp.polygon ≠ [] →
      3 ≤ (simplifyPolygon (resp.polygon.map (denormPoint s)) 2).length) :
    Inv3 (doAISuccess s resp fid) := by
  obtain ⟨hsub, hnd, hpol, hact⟩ := hs
  simp only [doAISuccess, doAIStart]
  by_cases hpoly : resp.polygon.isEmpty = true
  · rw [if_pos hpoly]
    exact ⟨hsub, hnd, hpol, hact⟩
  · rw [if_neg hpoly]
    have hne : resp.polygon ≠ [] := by
      intro h
      exact hpoly (by simp [h])
    refine ⟨?_, ?_, ?_, ?_⟩
    · intro a ha
      rcases List.mem_append.mp ha with ha | ha
      · exact List.mem_append_left _ (mem_ids_deselectAll hsub a ha)
      · simp only [List.mem_singleton] at ha
        subst ha
        exact List.mem_append_right _ (by simp)
    · exact nodup_append_fresh (mem_ids_deselectAll hsub)
        (by rw [idsOf_deselectAll]; exact hnd) hfresh
    · intro a ha ht hc
      rcases List.mem_append.mp ha with ha | ha
      · exact polyOk_deselectAll hpol a ha ht hc
      · simp only [List.mem_singleton] at ha
        subst ha
        exact hmin3 hne
    · intro act h
      have h2 : s.activeAnnot = some act := h
      obtain ⟨hidu, hply, hcmp, hsync⟩ := hact act h2
      refine ⟨List.mem_append_left _ hidu, hply, hcmp, ?_⟩
      intro a ha haid
      rcases List.mem_append.mp ha with ha | ha
      · simp only [deselectAll, List.mem_map] at ha
        obtain ⟨b, hb, rfl⟩ := ha
        exact hsync b hb haid
      · simp only [List.mem_singleton] at ha
        subst ha
        have hq : aiIdUsed resp fid = act.id := haid
        rw [← hq] at hidu
        exact absurd hidu hfresh

lemma inv3_step {s t : EngineState} (hs : Inv3 s) (hst : Step cfgPoly3 s t) : Inv3 t := by
  cases hst with
  | createShape tool anchor movedTo fid htool hfid hat =>
    exact inv3_createShape s tool anchor movedTo fid hs htool hfid
  | polygonPress tool pos fid hfid => exact inv3_polygonPress s tool pos fid hs hfid
  | polygonClick pos => exact inv3_polygonClick s pos hs
  | keyEnter => exact inv3_complete s hs
  | keyEscape => exact inv3_cancel s hs
  | keyBackspace => exact inv3_deleteLast s hs
  | keyDelete => exact inv3_deleteSelected s hs
  | selectClick k hk hat => exact inv3_selectClick s k hs
  | emptyClick hat => exact inv3_emptyClick s hs
  | dragControl tid idx movedTo hhit hat => exact inv3_drag s tid idx movedTo hs hhit
  | aiSuccess resp fid hfid hfresh hmin3 hat =>
    exact inv3_aiSuccess s resp fid hs (hfresh rfl) (hmin3 rfl)
  | aiFailure msg => exact inv3_aiFailure s msg hs

lemma reachable_inv3 {s : EngineState} (h : Reachable cfgPoly3 s) : Inv3 s := by
  induction h with
  | init w h => exact inv3_init w h
  | step hr hst ih => exact inv3_step ih hst

/-! ## Claim C3 -/

lemma c3BadState_eval : c3BadState.annotations
    = [⟨"seg-ai-1", ATool.polygon, [⟨50, 50⟩], true, "default", true⟩] := by
  norm_num [c3BadState, doAISuccess, doAIStart, initState, c3Resp, aiIdUsed, denormPoint,
    simplifyPolygon, deselectAll, Annot.mk.injEq, Pt.mk.injEq]
  exact fun h => absurd h (by decide)

/-- C3 counterexample: a successful AI segmentation whose response polygon has
a single point produces a *completed polygon annotation with 1 vertex* — the
empty-polygon guard admits any nonempty response, and `simplifyPolygon`
returns inputs shorter than 3 unchanged.  So the invariant fails on states
reachable by the claim's own operation set. -/
theorem C3_counterexample :
    Reachable cfgAsStated c3BadState ∧ ¬ polyOk c3BadState.annotations := by
  constructor
  · exact Reachable.step (Reachable.init 100 100)
      (Step.aiSuccess (initState 100 100) c3Resp "gen-1" (by simp [initState])
        (fun h => by simp [cfgAsStated] at h)
        (fun h => by simp [cfgAsStated] at h)
        (fun h => by simp [cfgAsStated] at h))
  · intro hp
    have h3 := hp ⟨"seg-ai-1", ATool.polygon, [⟨50, 50⟩], true, "default", true⟩
      (by rw [c3BadState_eval]; exact List.mem_singleton.mpr rfl) rfl rfl
    norm_num at h3

/-- C3 (amended): in every state reachable by the engine's operations —
provided every id installed (generated or server-provided) is fresh and every
nonempty AI response still has at least 3 vertices after the preview
simplification — every completed polygon annotation has at least 3 points.
Without the AI proviso the code violates the invariant (see the
counterexample); the manual drawing flow enforces it via `completePolygon`. -/
theorem C3_completed_polygon_min3 (s : EngineState) (h : Reachable cfgPoly3 s) :
    ∀ a ∈ s.annotations, a.type = ATool.polygon → a.completed = true →
      3 ≤ a.points.length :=
  (reachable_inv3 h).2.2.1

lemma sqState1_eval : sqState1
    = ⟨[sqAnnot], none, false, some "seg-dup", ["seg-dup"], 1, 100, 100, false, none⟩ := by
  norm_num [sqState1, doAISuccess, doAIStart, initState, sqResp, aiIdUsed, denormPoint,
    simplifyPolygon, simplifyLoop, keepPoint, shortSeg, dotBelow, distGt, sqDist, sqLen,
    deselectAll, sqAnnot, EngineState.mk.injEq, Annot.mk.injEq, Pt.mk.injEq]
  exact fun h => absurd h (by decide)

/-- Witness for C3: after one AI ingestion of a square response (4 simplified
vertices, fresh id), the completed polygon indeed has ≥ 3 points. -/
theorem C3_completed_polygon_min3_witness : 3 ≤ sqAnnot.points.length :=
  C3_completed_polygon_min3 sqState1
    (Reachable.step (Reachable.init 100 100)
      (Step.aiSuccess (initState 100 100) sqResp "gen-2" (by simp [initState])
        (fun _ => by simp [initState])
        (fun _ _ => by
          norm_num [sqResp, denormPoint, initState, simplifyPolygon, simplifyLoop, keepPoint,
            shortSeg, dotBelow, distGt, sqDist, sqLen])
        (fun h => by simp [cfgPoly3] at h)))
    sqAnnot (by rw [sqState1_eval]; exact List.mem_singleton.mpr rfl) rfl rfl

/-! ## Claim C9 -/

lemma sqState2_eval : sqState2
    = ⟨[{ sqAnnot with isSelected := false }, sqAnnot], none, false, some "seg-dup",
       ["seg-dup", "seg-dup"], 1, 100, 100, false, none⟩ := by
  rw [sqState2, sqState1_eval]
  norm_num [doAISuccess, doAIStart, aiIdUsed, sqResp, denormPoint,
    simplifyPolygon, simplifyLoop, keepPoint, shortSeg, dotBelow, distGt, sqDist, sqLen,
    deselectAll, sqAnnot, EngineState.mk.injEq, Annot.mk.injEq, Pt.mk.injEq]
  exact fun h => absurd h (by decide)

lemma c9Bad_eval : c9Bad.annotations = [sqAnnot, sqAnnot] := by
  simp only [c9Bad, doDrag]
  rw [sqState2_eval]
  norm_num [sqAnnot, Annot.mk.injEq]

/-- C9 counterexample: the segmentation service returns the same
`annotation_id` twice (e.g. a cached result), so two stored annotations share
one id; grabbing a control point then selects *both* (`handleMouseDown` sets
`isSelected := a.id === annotation.id`), leaving two annotations with
`isSelected = true` in a state reachable by the claim's operations. -/
theorem C9_counterexample :
    Reachable cfgAsStated c9Bad ∧ selCount c9Bad.annotations = 2 := by
  constructor
  · have h1 : Reachable cfgAsStated sqState1 :=
      Reachable.step (Reachable.init 100 100)
        (Step.aiSuccess (initState 100 100) sqResp "gen-2" (by simp [initState])
          (fun h => by simp [cfgAsStated] at h)
          (fun h => by simp [cfgAsStated] at h)
          (fun h => by simp [cfgAsStated] at h))
    have h2 : Reachable cfgAsStated sqState2 :=
      Reachable.step h1
        (Step.aiSuccess sqState1 sqResp "gen-3"
          (by rw [sqState1_eval]; simp)
          (fun h => by simp [cfgAsStated] at h)
          (fun h => by simp [cfgAsStated] at h)
          (fun h => by simp [cfgAsStated] at h))
    refine Reachable.step h2 (Step.dragControl sqState2 "seg-dup" 0 none ?_
      (fun h => by simp [cfgAsStated] at h))
    refine ⟨sqAnnot, ?_, rfl, rfl, ?_⟩
    · rw [sqState2_eval]
      simp
    · norm_num [getControlPoints, sqAnnot]
      decide
  · rw [show selCount c9Bad.annotations = selCount [sqAnnot, sqAnnot] from by rw [c9Bad_eval]]
    norm_num [selCount, List.countP_cons, sqAnnot]

/-- C9 (amended): in every state reachable by the engine's operations —
provided every installed annotation id (generated or server-provided) is
fresh, and selection clicks, empty-canvas clicks, control-point drags, shape
creations and AI ingestions happen only while no shape is being drawn (events
of distinct interactions do not interleave) — at most one annotation has
`isSelected = true`.  Without the freshness proviso a duplicated server id
makes a control-point drag select two annotations (see the counterexample);
without the non-interleaving proviso, completing a shape after an intervening
AI success re-selects it from the stale active-annotation snapshot alongside
the AI result. -/
theorem C9_at_most_one_selected (s : EngineState) (h : Reachable cfgSel s) :
    selCount s.annotations ≤ 1 :=
  (reachable_inv9 h).2.2.1

/-- Witness for C9: after one AI ingestion exactly one annotation is
selected, so the bound holds with value 1. -/
theorem C9_at_most_one_selected_witness : selCount sqState1.annotations ≤ 1 :=
  C9_at_most_one_selected sqState1
    (Reachable.step (Reachable.init 100 100)
      (Step.aiSuccess (initState 100 100) sqResp "gen-2" (by simp [initState])
        (fun _ => by simp [initState])
        (fun h => by simp [cfgSel] at h)
        (fun _ => rfl)))
